import Mathlib

set_option maxRecDepth 100000

/-!
Verification of the job-tracker extraction/normalization pipeline.

The Python sources (src/scraper.py, src/scrapers/generic.py,
src/scrapers/dispatcher.py, src/scrapers/linkedin.py) are embedded
shallowly: Python strings become `List Char`, Python floats become exact
rationals (`ℚ`), decoded JSON becomes the inductive `Json`, and the
BeautifulSoup / requests collaborators are abstracted as a `Doc` record
holding exactly the primitives the code consumes (script blocks, selector
text lookup, meta content lookup, full visible text).
-/

/-! ## Definitions -/

/-! ### Python string primitives over `List Char` -/

/-- Characters treated as whitespace by Python `str.strip` (ASCII range). -/

def pySpace (c : Char) : Bool :=
  c = ' ' || c = '\t' || c = '\n' || c = '\x0d' || c = '\x0b' || c = '\x0c'

/-- Python `str.lower` on the ASCII range (the inputs of interest are
ASCII); written as an explicit table. -/

def pyLowerChar (c : Char) : Char :=
  match c with
  | 'A' => 'a' | 'B' => 'b' | 'C' => 'c' | 'D' => 'd' | 'E' => 'e' | 'F' => 'f'
  | 'G' => 'g' | 'H' => 'h' | 'I' => 'i' | 'J' => 'j' | 'K' => 'k' | 'L' => 'l'
  | 'M' => 'm' | 'N' => 'n' | 'O' => 'o' | 'P' => 'p' | 'Q' => 'q' | 'R' => 'r'
  | 'S' => 's' | 'T' => 't' | 'U' => 'u' | 'V' => 'v' | 'W' => 'w' | 'X' => 'x'
  | 'Y' => 'y' | 'Z' => 'z'
  | _ => c

def pyLower (l : List Char) : List Char := l.map pyLowerChar

/-- Python `str.strip()`: drop leading and trailing whitespace. -/

def pyStrip (l : List Char) : List Char :=
  ((l.dropWhile pySpace).reverse.dropWhile pySpace).reverse

/-- All indices at which `needle` occurs in `hay` (ascending order). -/

def occList (hay needle : List Char) : List Nat :=
  (List.range (hay.length + 1)).filter (fun i => needle.isPrefixOf (hay.drop i))

/-- Python `str.find`: index of the first occurrence, `none` when absent. -/

def pyFind (hay needle : List Char) : Option Nat := (occList hay needle).head?

/-- Python `str.rfind`: index of the last occurrence, `none` when absent. -/

def pyRFind (hay needle : List Char) : Option Nat := (occList hay needle).getLast?

/-- Python `needle in hay` substring test. -/

def pyContains (hay needle : List Char) : Bool := !(occList hay needle).isEmpty

/-- Prefix of `hay` strictly before the first occurrence of `needle`
(`hay.split(needle, 1)[0]` when `needle` occurs). -/

def takeBefore (hay needle : List Char) : List Char :=
  match pyFind hay needle with
  | some i => hay.take i
  | none => hay

def pyStartsWith (hay needle : List Char) : Bool := needle.isPrefixOf hay

def pyEndsWith (hay needle : List Char) : Bool := needle.isSuffixOf hay

/-! ### Digit rendering (Python `str` of `int`) -/

def digitChar (d : Nat) : Char := Char.ofNat (48 + d)

/-- Digit accumulator; the fuel argument only drives structural recursion
(`natDigits` supplies enough for any input). -/

def natDigitsAux : Nat → Nat → List Char → List Char
  | 0, _, acc => acc
  | fuel + 1, n, acc =>
    if n < 10 then digitChar n :: acc
    else natDigitsAux fuel (n / 10) (digitChar (n % 10) :: acc)

/-- Decimal digits of a natural number, most significant first. -/

def natDigits (n : Nat) : List Char := natDigitsAux (n + 1) n []

/-- Python `str` of an `int` value. -/

def intDigits (i : Int) : List Char :=
  if i < 0 then '-' :: natDigits (-i).toNat else natDigits i.toNat

/-! ### Exact-rational model of Python floats

Python floats are modelled as exact rationals: every numeric literal that
the scraped pages carry is a short decimal, and the comparisons and floor
divisions the code performs on them agree with exact-rational semantics for
such values.  Scaling and rounding are implemented through `.num`/`.den`
integer arithmetic (the kernel does not reduce `Rat.mul`/`Rat.add`), with
bridge lemmas to the textbook forms. -/

/-- Source: `q * 10 ^ j` computed on the numerator/denominator representation. -/

def ratScale (q : ℚ) (j : Int) : ℚ :=
  if 0 ≤ j then mkRat (q.num * (10 : Int) ^ j.toNat) q.den
  else mkRat q.num (q.den * (10 : Nat) ^ (-j).toNat)

/-- Source: `math.floor` on an exact rational. -/

def pyFloor (q : ℚ) : Int := q.num.fdiv q.den

/-- Source: `round` to the nearest integer, ties to even (Python / C99 `%g`). -/

def roundHalfEven (r : ℚ) : Int :=
  let n := pyFloor r
  let rem2 := 2 * (r.num - n * r.den)
  if (r.den : Int) < rem2 then n + 1
  else if rem2 < (r.den : Int) then n
  else if n % 2 = 0 then n else n + 1

/-- Source: `math.floor(value / 1000.0)` on the exact-rational float model. -/

def floorDiv1000 (q : ℚ) : Int := pyFloor (ratScale q (-3))

/-- Source: `f"{int(math.floor(value / 1000.0))}k"` (the local `_to_k` helper and the
k-branches of the salary formatters). -/

def toK (q : ℚ) : List Char := intDigits (floorDiv1000 q) ++ ['k']

/-! ### Python `%g` float formatting (used by `f"{number:g}"`)

`%g` prints 6 significant digits, strips trailing zeros, and switches to
scientific notation when the decimal exponent is below -4 or at least 6.
Rounding is modelled as round-half-even on the exact rational value. -/

def stripTrailingZeros (l : List Char) : List Char :=
  (l.reverse.dropWhile (· = '0')).reverse

def padLeftZeros (l : List Char) (n : Nat) : List Char :=
  List.replicate (n - l.length) '0' ++ l

/-- Smallest `k` (starting from `k0`) satisfying `p`, giving up after
`fuel` steps; callers supply fuel provably large enough. -/

def searchK (p : Nat → Bool) : Nat → Nat → Nat
  | 0, k0 => k0
  | fuel + 1, k0 => if p k0 then k0 else searchK p fuel (k0 + 1)

/-- Decimal exponent of a positive rational (`floor (log10 q)`).  For
`q < 1` it is `-k` for the smallest `k` with `q * 10 ^ k ≥ 1`; `k` never
exceeds the digit count of the denominator. -/

def decExpPos (q : ℚ) : Int :=
  if 1 ≤ q then ((natDigits (pyFloor q).toNat).length : Int) - 1
  else -(searchK (fun k => decide (q.den ≤ q.num.toNat * 10 ^ k)) ((natDigits q.den).length + 1) 1 : Int)

/-- Mantissa of `q` rounded to six significant decimal digits. -/

def sixDigitMantissa (q : ℚ) (e : Int) : Nat :=
  (roundHalfEven (ratScale q (5 - e))).toNat

/-- Renders six significant digits `ds` at decimal exponent `e`:
positional with trailing-zero stripping inside the `%g` window, scientific
with a two-digit exponent outside it. -/

def fmtGRender (e : Int) (ds : List Char) : List Char :=
  if -4 ≤ e ∧ e < 6 then
    if 0 ≤ e then
      ds.take (e.toNat + 1) ++
        (if (stripTrailingZeros (ds.drop (e.toNat + 1))).isEmpty then []
         else '.' :: stripTrailingZeros (ds.drop (e.toNat + 1)))
    else '0' :: '.' :: stripTrailingZeros (List.replicate ((-e).toNat - 1) '0' ++ ds)
  else
    (ds.take 1 ++
      (if (stripTrailingZeros (ds.drop 1)).isEmpty then []
       else '.' :: stripTrailingZeros (ds.drop 1))) ++
      'e' :: (if 0 ≤ e then '+' else '-') ::
        padLeftZeros (natDigits (if 0 ≤ e then e else -e).toNat) 2

/-- Six-digit rounding can carry (`999999.5` rounds to `1000000`): renormalize
the mantissa and bump the exponent before rendering. -/

def fmtGPos (q : ℚ) : List Char :=
  if sixDigitMantissa q (decExpPos q) = 10 ^ 6 then
    fmtGRender (decExpPos q + 1) (natDigits (10 ^ 5))
  else fmtGRender (decExpPos q) (natDigits (sixDigitMantissa q (decExpPos q)))

/-- Python `f"{x:g}"` on the exact-rational float model. -/

def fmtG (q : ℚ) : List Char :=
  if q = 0 then ['0']
  else if q < 0 then '-' :: fmtGPos (-q)
  else fmtGPos q

/-! ### Python `str` of a non-integer float (shortest decimal repr)

`str(x)` for a float that came from a short decimal literal prints that
decimal.  On the exact-rational model this is the finite decimal expansion
with the shortest fractional part.  Rationals without a finite expansion
cannot arise from Python floats; they fall back to a fraction rendering. -/

def pyStrFloatNonneg (q : ℚ) : List Char :=
  if q.den = 1 then intDigits q.num
  else
    let k := searchK (fun k => decide ((mkRat (q.num * (10 : Int) ^ k) q.den).den = 1))
      (4 * (natDigits q.den).length + 4) 1
    if (mkRat (q.num * (10 : Int) ^ k) q.den).den = 1 then
      let ds := padLeftZeros (natDigits (mkRat (q.num * (10 : Int) ^ k) q.den).num.toNat)
        (k + 1)
      ds.take (ds.length - k) ++ '.' :: ds.drop (ds.length - k)
    else intDigits q.num ++ '/' :: natDigits q.den

def pyStrFloat (q : ℚ) : List Char :=
  if q < 0 then '-' :: pyStrFloatNonneg (-q) else pyStrFloatNonneg q

/-! ### Numeric-token extraction (`re.findall(r"\d[\d,]*(?:\.\d+)?", raw)`)

The pattern has no backtracking interplay: `[\d,]*` cannot consume a dot,
so each match is a maximal run of digits/commas starting with a digit,
optionally followed by a dot and a maximal run of digits.  `re.findall`
returns the non-overlapping leftmost matches in order. -/

def isDigitCh (c : Char) : Bool := '0' ≤ c && c ≤ '9'

def isDigitOrComma (c : Char) : Bool := isDigitCh c || c = ','

/-- One scan step per fuel unit; `findNumTokens` supplies `length + 1`. -/

def numTokensAux : Nat → List Char → List (List Char)
  | 0, _ => []
  | _ + 1, [] => []
  | fuel + 1, c :: rest =>
    if isDigitCh c then
      let body := rest.takeWhile isDigitOrComma
      let rest1 := rest.dropWhile isDigitOrComma
      match rest1 with
      | '.' :: d :: r2 =>
        if isDigitCh d then
          let fr := r2.takeWhile isDigitCh
          (c :: body ++ '.' :: d :: fr) :: numTokensAux fuel (r2.dropWhile isDigitCh)
        else (c :: body) :: numTokensAux fuel rest1
      | _ => (c :: body) :: numTokensAux fuel rest1
    else numTokensAux fuel rest

def findNumTokens (l : List Char) : List (List Char) := numTokensAux (l.length + 1) l

/-- Numeric value of a digit list. -/

def digitsToNat (l : List Char) : Nat := l.foldl (fun a c => a * 10 + (c.toNat - 48)) 0

/-- Source: `float(match.replace(",", ""))`: exact rational value of a matched
token (always parses: after comma removal a token is digits with an
optional dot-digits tail). -/

def parseDecimal (token : List Char) : ℚ :=
  let t := token.filter (fun c => c ≠ ',')
  let ip := t.takeWhile isDigitCh
  match t.dropWhile isDigitCh with
  | '.' :: fr => mkRat (digitsToNat ip * 10 ^ fr.length + digitsToNat fr) (10 ^ fr.length)
  | _ => (digitsToNat ip : ℚ)

/-! ### `_normalize_salary_text` (src/scrapers/generic.py, lines 173-217)

Notes kept from the source: the `float(...)` conversion in the
accumulation loop can never fail (a comma-stripped token is digits with an
optional `.digits` tail), so `numbers` has exactly one entry per match;
line 214 (`return f"{first:g}-{second:g}"`) is dead code behind a
`return`; the final two lines compute `_to_k(numbers[0])` even when
`numbers[0] < 1000`. -/

def normalizeSalaryText (text : List Char) : Option (List Char) :=
  let raw := pyStrip text
  if raw.isEmpty then none
  else
    let lowered := pyLower raw
    if pyContains lowered "k".toList then some raw
    else if pyContains lowered "hr".toList || pyContains lowered "hour".toList then some raw
    else if (findNumTokens raw).isEmpty then some raw
    else
      match (findNumTokens raw).map parseDecimal with
      | [] => some raw
      | a :: tail =>
        if (a :: tail).all (fun v => decide (v < 1000)) then
          match tail with
          | [b] => some (fmtG a ++ '-' :: fmtG b)
          | _ => some (fmtG a)
        else
          match tail with
          | b :: _ =>
            if 1000 ≤ a ∧ 1000 ≤ b then
              some (intDigits (floorDiv1000 a) ++ '-' :: intDigits (floorDiv1000 b) ++ ['k'])
            else if 1000 ≤ a then some (toK a) else some (toK a)
          | [] => if 1000 ≤ a then some (toK a) else some (toK a)

/-! ### JSON model

`json.loads` output is modelled by `Json`.  Numbers (Python `int` or
`float`) are exact rationals.  JSON `null` decodes to Python `None`; the
code never distinguishes a key mapped to `None` from a missing key when it
uses `.get`, and `pyGet` mirrors that by collapsing `null` to `none`. -/

inductive Json where
  | null
  | bool (b : Bool)
  | num (q : ℚ)
  | str (s : String)
  | arr (elems : List Json)
  | obj (fields : List (String × Json))

/-- Source: `dict.get(key)` (keys are unique in decoded JSON objects). -/

def pyGet (o : List (String × Json)) (k : String) : Option Json :=
  match o.lookup k with
  | some Json.null => none
  | some v => some v
  | none => none

/-- Python truthiness of a decoded JSON value. -/

def pyTruthy : Json → Bool
  | .null => false
  | .bool b => b
  | .num q => decide (q ≠ 0)
  | .str s => decide (s ≠ "")
  | .arr l => !l.isEmpty
  | .obj l => !l.isEmpty

/-- Optional exponent tail of a float literal (`e`/`E`, optional sign). -/

def parseExpTail (l : List Char) : Option Int :=
  match l with
  | [] => some 0
  | e :: rest =>
    if e = 'e' ∨ e = 'E' then
      let (sgn, ds) : Int × List Char :=
        match rest with
        | '+' :: r => (1, r)
        | '-' :: r => (-1, r)
        | r => (1, r)
      if ds.isEmpty ∨ ¬(ds.all isDigitCh) then none
      else some (sgn * (digitsToNat ds : Int))
    else none

/-- Python `float(string)`: optional sign, decimal mantissa, optional
exponent (the `inf`/`nan` spellings are not modelled; they do not occur in
salary data). -/

def pyParseFloatStr (s : List Char) : Option ℚ :=
  let t := pyStrip s
  let (sgn, body) : Int × List Char :=
    match t with
    | '+' :: r => (1, r)
    | '-' :: r => (-1, r)
    | r => (1, r)
  let ip := body.takeWhile isDigitCh
  let r1 := body.dropWhile isDigitCh
  let mantAndRest : Option (ℚ × List Char) :=
    match r1 with
    | '.' :: r2 =>
      let fr := r2.takeWhile isDigitCh
      if ip.isEmpty ∧ fr.isEmpty then none
      else some (mkRat (digitsToNat ip * 10 ^ fr.length + digitsToNat fr) (10 ^ fr.length),
        r2.dropWhile isDigitCh)
    | r2 => if ip.isEmpty then none else some ((digitsToNat ip : ℚ), r2)
  match mantAndRest with
  | none => none
  | some (m, rest) =>
    match parseExpTail rest with
    | none => none
    | some ex => some (ratScale (mkRat (sgn * m.num) m.den) ex)

/-- Python `float(x)` on a decoded JSON value (`TypeError` on `None`,
lists and dicts becomes `none`; `bool` coerces to 0/1). -/

def pyFloatJson : Json → Option ℚ
  | .num q => some q
  | .bool b => some (if b then 1 else 0)
  | .str s => pyParseFloatStr s.toList
  | _ => none

/-- Source: `(unit or "").lower()`: absent and falsy units give the empty string.
A truthy non-string unit raises `AttributeError` in the source (no record
is returned there); the model is only consulted away from that case. -/

def unitTextOf (unit : Option Json) : List Char :=
  match unit with
  | some (Json.str s) => pyLower s.toList
  | _ => []

/-- Source: `"year" in unit_text or "yr" in unit_text or not unit_text`. -/

def unitIsYearish (ut : List Char) : Bool :=
  pyContains ut "year".toList || pyContains ut "yr".toList || ut.isEmpty

/-- Source: `_format_salary_range` (src/scrapers/generic.py, lines 152-170). -/

def formatSalaryRange (minValue maxValue unit : Option Json) : Option (List Char) :=
  match minValue, maxValue with
  | some mv, some xv =>
    match pyFloatJson mv, pyFloatJson xv with
    | some minNum, some maxNum =>
      if 1000 ≤ minNum ∧ 1000 ≤ maxNum ∧ unitIsYearish (unitTextOf unit) then
        some (intDigits (floorDiv1000 minNum) ++ '-' :: intDigits (floorDiv1000 maxNum) ++ ['k'])
      else none
    | _, _ => none
  | _, _ => none

/-- Source: `_format_salary_value` (src/scrapers/generic.py, lines 130-149). -/

def formatSalaryValue (rawValue unit : Option Json) : Option (List Char) :=
  match rawValue with
  | none => none
  | some (Json.str s) =>
    let text := pyStrip s.toList
    if text.isEmpty then none else normalizeSalaryText text
  | some v =>
    match pyFloatJson v with
    | none => none
    | some numeric =>
      if 1000 ≤ numeric ∧ unitIsYearish (unitTextOf unit) then
        some (intDigits (floorDiv1000 numeric) ++ ['k'])
      else if numeric.den = 1 then some (intDigits numeric.num)
      else some (pyStrFloat numeric)

/-- Source: `_normalize_salary` (src/scrapers/generic.py, lines 109-127). -/

def normalizeSalary (job : List (String × Json)) : Option (List Char) :=
  match pyGet job "baseSalary" with
  | some (Json.obj base) =>
    match pyGet base "value" with
    | some (Json.obj v) =>
      let minVal := pyGet v "minValue"
      let maxVal := pyGet v "maxValue"
      let unit := pyGet v "unitText"
      match formatSalaryRange minVal maxVal unit with
      | some rangeText => some rangeText
      | none => formatSalaryValue minVal unit
    | some value => if pyTruthy value then formatSalaryValue (some value) none else none
    | none => none
  | _ => none

/-! ### `_clean_title` (src/scrapers/generic.py, lines 59-77) -/

/-- Suffix of `hay` after the first occurrence of `needle`
(`hay.split(needle, 1)[1]` when `needle` occurs). -/

def dropThroughFirst (hay needle : List Char) : List Char :=
  match pyFind hay needle with
  | some i => hay.drop (i + needle.length)
  | none => []

def titleSeparators : List (List Char) := [" | ".toList, " - ".toList, " at ".toList]

/-- One iteration of the separator loop:
`if sep in title: title = title.split(sep, 1)[0].strip()`. -/

def sepCutStep (t sep : List Char) : List Char :=
  if pyContains t sep then pyStrip (takeBefore t sep) else t

def applySepCuts (t : List Char) : List Char := titleSeparators.foldl sepCutStep t

/-- Source: `if " in " in lower: title = title[:lower.rfind(" in ")].strip()`
(`pyLower` preserves length, so the index computed on the lowered string
addresses the same position in the original). -/

def cutLastIn (t : List Char) : List Char :=
  if pyContains (pyLower t) " in ".toList then
    match pyRFind (pyLower t) " in ".toList with
    | some idx => pyStrip (t.take idx)
    | none => t
  else t

/-- Source: `if title.endswith(")") and "(" in title: title = title[:title.rfind("(")].strip()`. -/

def cutTrailingParen (t : List Char) : List Char :=
  if pyEndsWith t [')'] ∧ pyContains t ['('] then
    match pyRFind t ['('] with
    | some idx => pyStrip (t.take idx)
    | none => t
  else t

def titleTerms : List (List Char) :=
  ["internship".toList, "intern".toList, "contract".toList, "temporary".toList]

/-- One iteration of the employment-type keyword loop:
`if term in title.lower(): title = title[:title.lower().find(term)].strip()`. -/

def termCutStep (t term : List Char) : List Char :=
  if pyContains (pyLower t) term then
    match pyFind (pyLower t) term with
    | some idx => pyStrip (t.take idx)
    | none => t
  else t

def applyTermCuts (t : List Char) : List Char := titleTerms.foldl termCutStep t

def cleanTitle (raw : Option (List Char)) : Option (List Char) :=
  match raw with
  | none => none
  | some r =>
    if r.isEmpty then none
    else
      let t := applyTermCuts (cutTrailingParen (cutLastIn (applySepCuts (pyStrip r))))
      if t.isEmpty then none else some t

/-! ### `_split_linkedin_hiring_title` (src/scrapers/generic.py, lines 80-88) -/

def splitLinkedinHiringTitle (raw : Option (List Char)) :
    Option (List Char) × Option (List Char) :=
  match raw with
  | none => (none, none)
  | some r =>
    if r.isEmpty then (none, none)
    else
      let text := pyStrip r
      if pyContains text " hiring ".toList then
        let company := pyStrip (takeBefore text " hiring ".toList)
        let title := pyStrip (dropThroughFirst text " hiring ".toList)
        (if company.isEmpty then none else some company,
         if title.isEmpty then none else some title)
      else (none, none)

/-! ### Work-mode classification (src/scrapers/generic.py, lines 220-230 and 302-315) -/

/-- Source: `_find_work_mode_in_text`. -/

def findWorkModeInText (text : List Char) : Option (List Char) :=
  let lowered := pyLower text
  if pyContains lowered "remote".toList then some "Remote".toList
  else if pyContains lowered "hybrid".toList then some "Hybrid".toList
  else if pyContains lowered "on-site".toList || pyContains lowered "onsite".toList ||
      pyContains lowered "on site".toList || pyContains lowered "in person".toList then
    some "On-site".toList
  else none

/-- Source: `_normalize_work_mode`. -/

def normalizeWorkMode (job : List (String × Json)) : Option (List Char) :=
  match pyGet job "jobLocationType" with
  | some (Json.str s) =>
    let lowered := pyLower s.toList
    if pyContains lowered "telecommute".toList || pyContains lowered "remote".toList then
      some "Remote".toList
    else if pyContains lowered "hybrid".toList then some "Hybrid".toList
    else if pyContains lowered "on site".toList || pyContains lowered "on-site".toList ||
        pyContains lowered "onsite".toList then
      some "On-site".toList
    else none
  | _ => none

/-! ### `_normalize_location` (src/scrapers/generic.py, lines 91-106)

`", ".join(parts)` requires each kept part to be a string; a truthy
non-string part raises `TypeError` in the source (no record returned), so
the model keeps string parts only. -/

def normalizeLocation (job : List (String × Json)) : Option (List Char) :=
  let loc :=
    match pyGet job "jobLocation" with
    | some (Json.arr (x :: _)) => some x
    | other => other
  match loc with
  | some (Json.obj l) =>
    let address :=
      match pyGet l "address" with
      | some a => if pyTruthy a then some a else some (Json.obj [])
      | none => some (Json.obj [])
    match address with
    | some (Json.obj a) =>
      let parts := (["addressLocality", "addressRegion", "addressCountry"]).filterMap
        (fun k => match pyGet a k with
          | some (Json.str s) => if s = "" then none else some s.toList
          | _ => none)
      if parts.isEmpty then none else some (List.intercalate ", ".toList parts)
    | _ => none
  | _ => none

/-! ### `_parse_jsonld_jobposting` (src/scrapers/generic.py, lines 31-56)

The script blocks arrive as `List (Option Json)`: one entry per
`script[type="application/ld+json"]` element in document order, `none`
when the block has no string payload or `json.loads` raises
(`continue` in the source). -/

def jsonldCandidates (data : Json) : List Json :=
  match data with
  | .arr l => l
  | .obj o =>
    match o.lookup "@graph" with
    | some (Json.arr g) => g
    | _ => [Json.obj o]
  | _ => []

/-- Source: `obj.get("@type") == "JobPosting"`. -/

def isJobPostingObj (o : List (String × Json)) : Bool :=
  match o.lookup "@type" with
  | some (Json.str s) => s = "JobPosting"
  | _ => false

def firstJobPostingIn (candidates : List Json) : Option (List (String × Json)) :=
  candidates.findSome? (fun c =>
    match c with
    | Json.obj o => if isJobPostingObj o then some o else none
    | _ => none)

def parseJsonldJobposting (scripts : List (Option Json)) :
    Option (List (String × Json)) :=
  scripts.findSome? (fun sc =>
    match sc with
    | none => none
    | some data => firstJobPostingIn (jsonldCandidates data))

/-! ### `_US_STATES` (src/scrapers/generic.py, lines 233-285) -/

def usStates : List String :=
  ["AL", "AK", "AZ", "AR", "CA", "CO", "CT", "DE", "FL", "GA", "HI", "ID",
   "IL", "IN", "IA", "KS", "KY", "LA", "ME", "MD", "MA", "MI", "MN", "MS",
   "MO", "MT", "NE", "NV", "NH", "NJ", "NM", "NY", "NC", "ND", "OH", "OK",
   "OR", "PA", "RI", "SC", "SD", "TN", "TX", "UT", "VT", "VA", "WA", "WV",
   "WI", "WY", "DC"]

/-! ### `_find_location_in_text` (src/scrapers/generic.py, lines 288-299)

The pattern `\b([A-Z][a-zA-Z]+(?:[ -][A-Z][a-zA-Z]+)*)\s*,\s*([A-Z]{2})\b`
is embedded as a direct matcher.  All quantified pieces except the starred
group are safe to max-munch: `[a-zA-Z]+` cannot give back a letter usefully
(a shorter run leaves a letter where `[ -]` or `,` is required), and `\s*`
cannot give back a space where `,` or `[A-Z]` is required.  The starred
group is tried greedily with backtracking, like the Python engine does.
Word and space classes are modelled on the ASCII range. -/

def isUpperCh (c : Char) : Bool := 'A' ≤ c && c ≤ 'Z'

def isAsciiAlpha (c : Char) : Bool := isUpperCh c || ('a' ≤ c && c ≤ 'z')

def isWordCh (c : Char) : Bool := isAsciiAlpha c || isDigitCh c || c = '_'

/-- One `(?:[ -][A-Z][a-zA-Z]+)` unit: consumed characters and remainder. -/

def locUnit (l : List Char) : Option (List Char × List Char) :=
  match l with
  | c :: d :: rest =>
    if (c = ' ' ∨ c = '-') ∧ isUpperCh d then
      let ls := rest.takeWhile isAsciiAlpha
      if ls.isEmpty then none else some (c :: d :: ls, rest.dropWhile isAsciiAlpha)
    else none
  | _ => none

/-- Possible stops of the starred group, least greedy first; each unit
consumes at least three characters, so `fuel = length` suffices. -/

def locStarStops : Nat → List Char → List (List Char × List Char)
  | 0, l => [([], l)]
  | fuel + 1, l =>
    ([], l) :: (match locUnit l with
      | some (u, l2) => (locStarStops fuel l2).map (fun p => (u ++ p.1, p.2))
      | none => [])

/-- The `\s*,\s*([A-Z]{2})\b` tail: state group and remainder. -/

def locTail (l : List Char) : Option (List Char × List Char) :=
  match l.dropWhile pySpace with
  | ',' :: t2 =>
    match t2.dropWhile pySpace with
    | a :: b :: t4 =>
      if isUpperCh a ∧ isUpperCh b ∧ (t4.head?.all (fun c => !isWordCh c)) then
        some ([a, b], t4)
      else none
    | _ => none
  | _ => none

/-- Match attempt at the current position with the leading `\b` already
checked: `[A-Z][a-zA-Z]+`, then the starred group greedily with
backtracking, then the tail.  Returns (group 1, group 2, remainder). -/

def locMatchCore (l : List Char) : Option (List Char × List Char × List Char) :=
  match l with
  | c :: rest =>
    if isUpperCh c then
      if (rest.takeWhile isAsciiAlpha).isEmpty then none
      else
        (locStarStops (rest.dropWhile isAsciiAlpha).length
            (rest.dropWhile isAsciiAlpha)).reverse.findSome? (fun p =>
          match locTail p.2 with
          | some (st, t4) => some (c :: rest.takeWhile isAsciiAlpha ++ p.1, st, t4)
          | none => none)
    else none
  | [] => none

/-- Match attempt anchored at the current position (`prevC` is the
character before it, for the leading `\b`). -/

def locMatchAt (prevC : Option Char) (l : List Char) :
    Option (List Char × List Char × List Char) :=
  match prevC with
  | some pc => if isWordCh pc then none else locMatchCore l
  | none => locMatchCore l

/-- Source: `finditer` loop: first match whose state group is in the gazetteer.
Each recursive step consumes at least one character. -/

def locScanAux : Nat → Option Char → List Char → Option (List Char)
  | 0, _, _ => none
  | fuel + 1, prev, l =>
    match l with
    | [] => none
    | c :: rest =>
      match locMatchAt prev l with
      | some (g1, st, after) =>
        if usStates.contains (String.mk st) then some (g1 ++ ',' :: ' ' :: st)
        else
          match st with
          | [_, b] => locScanAux fuel (some b) after
          | _ => none
      | none => locScanAux fuel (some c) rest

def findLocationInText (text : List Char) : Option (List Char) :=
  match locScanAux (text.length + 1) none text with
  | some r => some r
  | none =>
    let lowered := pyLower text
    if pyContains lowered "remote".toList then some "Remote".toList
    else if pyContains lowered "hybrid".toList then some "Hybrid".toList
    else none

/-! ### Fetched-document abstraction

`scrape_generic` consumes a parsed page only through four primitives
(spec section 6): the `ld+json` script payloads in document order, the
stripped text of the first element matching a CSS selector, the `content`
attribute of the first element matching a selector, and the full visible
text `soup.get_text(" ", strip=True)`.  `Doc` packages those primitives;
the network fetch that produces the page is the out-of-scope collaborator
whose failure aborts the run before any of this code executes. -/

structure Doc where
  scripts : List (Option Json)
  selText : String → Option String
  selContent : String → Option String
  fullText : String

/-- BeautifulSoup guarantees the model cannot state definitionally:
`get_text(strip=True)` output carries no surrounding whitespace. -/

def DocWF (doc : Doc) : Prop :=
  ∀ sel t, doc.selText sel = some t → pyStrip t.toList = t.toList

/-- Source: `_first_text` (src/scrapers/generic.py, lines 16-21): first selector
whose element exists and has truthy stripped text. -/

def firstText (doc : Doc) (selectors : List String) : Option (List Char) :=
  selectors.findSome? (fun sel =>
    match doc.selText sel with
    | some t => if t = "" then none else some t.toList
    | none => none)

/-- Source: `_meta_content` (src/scrapers/generic.py, lines 24-28); `selContent`
is `none` when no element matches or the attribute is missing. -/

def metaContent (doc : Doc) (selector : String) : Option (List Char) :=
  match doc.selContent selector with
  | some c => if c = "" then none else some (pyStrip c.toList)
  | none => none

/-- Python `x or y` where `x` is an optional string (empty string falsy). -/

def pyOrOpt (a b : Option (List Char)) : Option (List Char) :=
  match a with
  | some x => if x.isEmpty then b else some x
  | none => b

/-- The optional JSON field the code hands to a string normalizer.  Falsy
non-strings are absorbed by the `if not raw` guard in the source and act
like `none`; a truthy non-string raises `AttributeError` in the source (no
record is returned at all), mapped to `none` here. -/

def jsonAsPyStrOpt : Option Json → Option (List Char)
  | some (Json.str s) => some s.toList
  | _ => none

/-- Canonical Job Record.  `company` and `posted` keep the raw decoded
JSON value because the structured branch stores
`hiring_org.get("name")` and `job.get("datePosted")` verbatim. -/

structure JobRecord where
  url : String
  title : Option (List Char)
  company : Option Json
  location : Option (List Char)
  pay : Option (List Char)
  posted : Option Json
  work_mode : Option (List Char)

/-- Structured branch of `scrape_generic` (src/scrapers/generic.py,
lines 324-347). -/

def scrapeStructured (url : String) (doc : Doc) (job : List (String × Json)) : JobRecord :=
  let title := cleanTitle (jsonAsPyStrOpt (pyGet job "title"))
  let company :=
    match pyGet job "hiringOrganization" with
    | some (Json.obj h) => pyGet h "name"
    | _ => none
  let location :=
    match normalizeLocation job with
    | some l => some l
    | none => findLocationInText doc.fullText.toList
  let pay := normalizeSalary job
  let posted := pyGet job "datePosted"
  let work_mode :=
    match normalizeWorkMode job with
    | some w => some w
    | none => findWorkModeInText doc.fullText.toList
  { url := url, title := title, company := company, location := location,
    pay := pay, posted := posted, work_mode := work_mode }

def titleFallbackSelectors : List String := ["h1", "title"]

def companySelectors : List String := ["[data-company]", ".company", ".company-name"]

def locationSelectors : List String :=
  ["span[dir='ltr'] span.tvm__text--low-emphasis", "span.tvm__text--low-emphasis",
   "[data-location]", ".location", ".job-location"]

def workModeHintSelectors : List String :=
  [".job-details-fit-level-preferences button span.tvm__text--low-emphasis strong",
   "span[aria-hidden='true'] span.tvm__text--low-emphasis strong",
   "span.tvm__text--low-emphasis strong"]

def paySelectors : List String :=
  ["span.tvm__text--low-emphasis strong", "[data-salary]", ".salary", ".compensation"]

/-- Heuristic branch of `scrape_generic` (src/scrapers/generic.py,
lines 349-401). -/

def scrapeHeuristic (url : String) (doc : Doc) : JobRecord :=
  let rawTitle := pyOrOpt (metaContent doc "meta[property='og:title']")
    (firstText doc titleFallbackSelectors)
  let split := splitLinkedinHiringTitle rawTitle
  let title := cleanTitle (pyOrOpt split.2 rawTitle)
  let company := pyOrOpt split.1 (firstText doc companySelectors)
  let location := pyOrOpt (firstText doc locationSelectors)
    (findLocationInText doc.fullText.toList)
  let workModeHint := firstText doc workModeHintSelectors
  let work_mode := pyOrOpt (findWorkModeInText (workModeHint.getD []))
    (findWorkModeInText doc.fullText.toList)
  let pay0 := firstText doc paySelectors
  let pay :=
    match pay0 with
    | some p => normalizeSalaryText p
    | none => none
  { url := url, title := title,
    company := company.map (fun l => Json.str (String.mk l)),
    location := location, pay := pay, posted := none, work_mode := work_mode }

/-- Source: `scrape_generic` (src/scrapers/generic.py, lines 318-401).  `if job:`
is truthiness of an optional dict: the `isEmpty` guard mirrors the empty
dict being falsy (the structured parser in fact only returns dicts
carrying an `@type` key, so that branch is never taken). -/

def scrapeGeneric (url : String) (doc : Doc) : JobRecord :=
  match parseJsonldJobposting doc.scripts with
  | some job => if job.isEmpty then scrapeHeuristic url doc else scrapeStructured url doc job
  | none => scrapeHeuristic url doc

/-! ### Site dispatcher (src/scrapers/dispatcher.py, src/scrapers/linkedin.py)

`urlparse(url).netloc` is modelled after `urllib.parse.urlsplit`: strip a
valid scheme prefix, then read the authority between `//` and the next
`/`, `?` or `#`; a netloc with unbalanced square brackets raises
`ValueError`, which `_site_from_url` turns into `None`. -/

def schemeValid (s : List Char) : Bool :=
  match s with
  | [] => false
  | c :: rest =>
    isAsciiAlpha c && rest.all (fun d => isAsciiAlpha d || isDigitCh d || d = '+' || d = '-' || d = '.')

def pyNetloc (url : List Char) : Option (List Char) :=
  let rest :=
    match pyFind url [':'] with
    | some i => if schemeValid (url.take i) then url.drop (i + 1) else url
    | none => url
  if pyStartsWith rest "//".toList then
    let nl := (rest.drop 2).takeWhile (fun c => ¬(c = '/' ∨ c = '?' ∨ c = '#'))
    if (pyContains nl ['['] && !pyContains nl [']']) ||
        (pyContains nl [']'] && !pyContains nl ['[']) then none
    else some nl
  else some []

/-- Source: `_site_from_url` (src/scrapers/dispatcher.py, lines 8-17). -/

def siteFromUrl (url : List Char) : Option (List Char) :=
  match pyNetloc url with
  | none => none
  | some nl =>
    let host0 := pyLower nl
    let host := if pyStartsWith host0 "www.".toList then host0.drop 4 else host0
    if pyEndsWith host "linkedin.com".toList then some "linkedin".toList else none

/-- Source: `scrape_linkedin` (src/scrapers/linkedin.py): delegates to the
generic strategy. -/

def scrapeLinkedin (url : String) (doc : Doc) : JobRecord := scrapeGeneric url doc

/-- Source: `scrape_job` (src/scrapers/dispatcher.py, lines 25-28):
`_SCRAPERS.get(site, scrape_generic)` applied to the url; `doc` stands for
the page the chosen scraper fetches for that url. -/

def scrapeJobDispatch (url : String) (doc : Doc) : JobRecord :=
  match siteFromUrl url.toList with
  | some site => if site = "linkedin".toList then scrapeLinkedin url doc else scrapeGeneric url doc
  | none => scrapeGeneric url doc

/-! ### Toolkit: formatter outputs are nonempty and trimmed -/

/-- The invariant the spec asserts for string fields: non-empty and
carrying no surrounding whitespace. -/

def strInv (t : List Char) : Prop := t ≠ [] ∧ pyStrip t = t

def optStrInv : Option (List Char) → Prop
  | none => True
  | some t => strInv t

def optJsonStrInv : Option Json → Prop
  | none => True
  | some (Json.str s) => strInv s.toList
  | some _ => False

/-! ## Claim theorems -/

/-- Example document for the C3 counterexample: a structured job posting
whose hiring organization carries an empty name. -/

def c3ExDoc : Doc :=
  { scripts := [some (Json.obj [("@type", Json.str "JobPosting"),
      ("hiringOrganization", Json.obj [("name", Json.str "")])])],
    selText := fun _ => none, selContent := fun _ => none, fullText := "" }

/-- The invariant C3 claims: every field except url is a non-empty
whitespace-trimmed string or absent. -/

def recordClaimInv (r : JobRecord) : Prop :=
  optStrInv r.title ∧ optJsonStrInv r.company ∧ optStrInv r.location ∧
  optStrInv r.pay ∧ optJsonStrInv r.posted ∧ optStrInv r.work_mode

/-- Document with no scripts and no matching selectors, used by witnesses. -/

def emptyDoc : Doc :=
  { scripts := [], selText := fun _ => none, selContent := fun _ => none, fullText := "" }

/-! ### Claim C1 -/

/-- Salary value object with a sub-1000 hourly range: the range formatter
declines it, and the fallback formats only the minimum. -/

def c1ExJob : List (String × Json) :=
  [("baseSalary", Json.obj [("value", Json.obj
    [("minValue", Json.num 25), ("maxValue", Json.num 30),
     ("unitText", Json.str "HOUR")])])]

def c1WitVal : List (String × Json) :=
  [("minValue", Json.num 90000), ("maxValue", Json.num 120000),
   ("unitText", Json.str "YEAR")]

def c1WitJob : List (String × Json) :=
  [("baseSalary", Json.obj [("value", Json.obj c1WitVal)])]

/-! ### Claim C2 -/

/-- The pay text mentions none of "k", "hr", "hour" (case-insensitively). -/

def noKHrHour (raw : List Char) : Prop :=
  pyContains (pyLower raw) "k".toList = false ∧
  pyContains (pyLower raw) "hr".toList = false ∧
  pyContains (pyLower raw) "hour".toList = false

/-! ### Claim C4 -/

/-- Spec-side reading of the parser for C4: decode every script that has
content, flatten each decoded block into its candidate objects, and take
the first candidate in document order whose type marks a JobPosting. -/

def claimFirstJobPosting (scripts : List (Option Json)) : Option (List (String × Json)) :=
  firstJobPostingIn ((scripts.filterMap id).flatMap jsonldCandidates)

/-- An object that is itself a JobPosting but also carries a top-level
"@graph" list: bare it yields nothing, in a list it is found. -/

def c4GraphObj : List (String × Json) :=
  [("@type", Json.str "JobPosting"), ("@graph", Json.arr [])]

def c4WitObj : List (String × Json) :=
  [("@type", Json.str "JobPosting"), ("title", Json.str "Dev")]

/-! ## Theorems -/

example : pyStrip "  ab c  ".toList = "ab c".toList := by decide

example : pyFind "a in b in c".toList " in ".toList = some 1 := by decide

example : pyRFind "a in b in c".toList " in ".toList = some 6 := by decide

example : takeBefore "a-b-c".toList "-".toList = "a".toList := by decide

example : pyContains "hello".toList "ell".toList = true := by decide

example : pyLower "Abc-Z".toList = "abc-z".toList := by decide

example : natDigits 90 = "90".toList := by decide

example : intDigits (-25) = "-25".toList := by decide

theorem pyFloor_eq_floor (q : ℚ) : pyFloor q = Int.floor q := by
  rw [pyFloor, Rat.floor_def, Int.fdiv_eq_ediv _ (Int.natCast_nonneg q.den)]

example : pyFloor (mkRat 3705 1000) = 3 := by decide

example : roundHalfEven (mkRat 505 10) = 50 := by decide

example : roundHalfEven (mkRat 515 10) = 52 := by decide

example : roundHalfEven (mkRat 5149 100) = 51 := by decide

example : toK 50000 = "50k".toList := by decide

example : toK (mkRat 500 1) = "0k".toList := by decide

example : fmtG (mkRat 505 10) = "50.5".toList := by decide

example : fmtG 500 = "500".toList := by decide

example : fmtG 0 = "0".toList := by decide

example : fmtG (mkRat 1 100000) = "1e-05".toList := by decide

example : fmtG (mkRat 1234567 1) = "1.23457e+06".toList := by decide

example : fmtG (mkRat 9999999 10) = "1e+06".toList := by decide

example : fmtG (mkRat 1 8) = "0.125".toList := by decide

example : pyStrFloat (mkRat 255 10) = "25.5".toList := by decide

example : pyStrFloat (mkRat 1 8) = "0.125".toList := by decide

example : pyStrFloat 25 = "25".toList := by decide

example : findNumTokens "50,000 - 60,000".toList =
    ["50,000".toList, "60,000".toList] := by decide

example : findNumTokens "pay 25.50 now".toList = ["25.50".toList] := by decide

example : findNumTokens "abc".toList = [] := by decide

example : parseDecimal "50,000".toList = 50000 := by decide

example : parseDecimal "25.50".toList = mkRat 2550 100 := by decide

example : normalizeSalaryText "50,000 - 60,000".toList = some "50-60k".toList := by decide

example : normalizeSalaryText "$25.50/hr".toList = some "$25.50/hr".toList := by decide

example : normalizeSalaryText "120k-140k".toList = some "120k-140k".toList := by decide

example : normalizeSalaryText "500 to 2000".toList = some "0k".toList := by decide

example : normalizeSalaryText "2000 or 500".toList = some "2k".toList := by decide

example : normalizeSalaryText "   ".toList = none := by decide

example : normalizeSalaryText "call us".toList = some "call us".toList := by decide

example : normalizeSalaryText "25.5 - 30".toList = some "25.5-30".toList := by decide

example :
    normalizeSalary [("baseSalary", Json.obj [("value", Json.obj
      [("minValue", Json.num 90000), ("maxValue", Json.num 120000),
       ("unitText", Json.str "YEAR")])])] = some "90-120k".toList := by decide

example :
    normalizeSalary [("baseSalary", Json.obj [("value", Json.obj
      [("minValue", Json.num 25), ("maxValue", Json.num 30),
       ("unitText", Json.str "HOUR")])])] = some "25".toList := by decide

example : normalizeSalary [("title", Json.str "x")] = none := by decide

example : cleanTitle (some "Senior Backend Engineer - Acme Corp | Remote".toList) =
    some "Senior Backend Engineer".toList := by decide

example : cleanTitle (some "x in y in z".toList) = some "x in y".toList := by decide

example : cleanTitle (some "x in y".toList) = some "x".toList := by decide

example : cleanTitle (some "International Sales Manager".toList) = none := by decide

example : cleanTitle none = none := by decide

example : cleanTitle (some "Engineer (Remote) (NY)".toList) =
    some "Engineer (Remote)".toList := by decide

example : splitLinkedinHiringTitle (some "Acme Corp hiring Senior Backend Engineer".toList) =
    (some "Acme Corp".toList, some "Senior Backend Engineer".toList) := by decide

example : splitLinkedinHiringTitle (some "Plain title".toList) = (none, none) := by decide

example :
    normalizeLocation [("jobLocation", Json.obj [("address", Json.obj
      [("addressLocality", Json.str "Austin"), ("addressRegion", Json.str "TX")])])]
    = some "Austin, TX".toList := by decide

example : findLocationInText "...role based in Austin, TX for a growing team...".toList =
    some "Austin, TX".toList := by decide

example : findLocationInText "This is a fully remote position".toList =
    some "Remote".toList := by decide

example : findLocationInText "Go, To market fast".toList = none := by decide

example : findLocationInText "San Francisco, CA office".toList =
    some "San Francisco, CA".toList := by decide

example : findLocationInText "Best, ZZ then Boise, ID".toList =
    some "Boise, ID".toList := by decide

example : findLocationInText "based in Selma,AL now".toList =
    some "Selma, AL".toList := by decide

example : findLocationInText "Miami FL, Gainesville, FL".toList =
    some "Gainesville, FL".toList := by decide

example : findLocationInText "Austin TX, CA".toList = some "Austin TX, CA".toList := by decide

example : findLocationInText "A1 Austin, TX".toList = some "Austin, TX".toList := by decide

example : findLocationInText "xAustin, TX ok Boise, ID".toList =
    some "Boise, ID".toList := by decide

example : findLocationInText "Ho Ho, HO Kokomo, IN".toList =
    some "Kokomo, IN".toList := by decide

example : findLocationInText "Winston-Salem, NC".toList =
    some "Winston-Salem, NC".toList := by decide

example : findLocationInText "Austin , TX".toList = some "Austin, TX".toList := by decide

example : normalizeSalaryText "1,2 and 7.5.3".toList = some "12".toList := by decide

example : normalizeSalaryText "120,000 - 140,000 per year".toList =
    some "120-140k".toList := by decide

example : siteFromUrl "https://www.linkedin.com/jobs/view/123".toList =
    some "linkedin".toList := by decide

example : siteFromUrl "https://boards.greenhouse.io/acme/jobs/1".toList = none := by decide

example : siteFromUrl "not a url".toList = none := by decide

example : siteFromUrl "https://uk.linkedin.com/jobs/view/9".toList =
    some "linkedin".toList := by decide

/-! ### Toolkit: stripping, substring search, infixes -/

theorem dropWhile_eq_self_of_head {p : Char → Bool} {l : List Char}
    (h : ∀ c, l.head? = some c → p c = false) : l.dropWhile p = l := by
  cases l with
  | nil => rfl
  | cons a t => simp [List.dropWhile_cons, h a rfl]

theorem head?_dropWhile_false {p : Char → Bool} {l : List Char} {x : Char}
    (hx : (l.dropWhile p).head? = some x) : p x = false := by
  have h := List.head?_dropWhile_not p l
  rw [hx] at h
  exact h

theorem getLast?_of_suffix {l₁ l₂ : List Char} (h : l₁ <:+ l₂) (hne : l₁ ≠ []) :
    l₂.getLast? = l₁.getLast? := by
  obtain ⟨t, rfl⟩ := h
  rw [List.getLast?_append]
  cases he : l₁.getLast? with
  | none => exact absurd (List.getLast?_eq_none_iff.mp he) hne
  | some x => rfl

theorem head?_of_isPrefix {l₁ l₂ : List Char} (h : l₁ <+: l₂) (hne : l₁ ≠ []) :
    l₂.head? = l₁.head? := by
  obtain ⟨t, rfl⟩ := h
  cases l₁ with
  | nil => exact absurd rfl hne
  | cons a t₁ => rfl

theorem head?_pyStrip_nonspace {l : List Char} {c : Char}
    (h : (pyStrip l).head? = some c) : pySpace c = false := by
  unfold pyStrip at h
  rw [List.head?_reverse] at h
  by_cases hz : ((l.dropWhile pySpace).reverse.dropWhile pySpace) = []
  · rw [hz] at h; exact absurd h (by simp)
  · rw [← getLast?_of_suffix (List.dropWhile_suffix pySpace) hz,
      List.getLast?_reverse] at h
    exact head?_dropWhile_false h

theorem getLast?_pyStrip_nonspace {l : List Char} {c : Char}
    (h : (pyStrip l).getLast? = some c) : pySpace c = false := by
  unfold pyStrip at h
  rw [List.getLast?_eq_head?_reverse, List.reverse_reverse] at h
  exact head?_dropWhile_false h

theorem pyStrip_eq_self_of_ends {l : List Char}
    (h1 : ∀ c, l.head? = some c → pySpace c = false)
    (h2 : ∀ c, l.getLast? = some c → pySpace c = false) : pyStrip l = l := by
  unfold pyStrip
  rw [dropWhile_eq_self_of_head h1,
    dropWhile_eq_self_of_head (by
      intro c hc
      rw [List.head?_reverse] at hc
      exact h2 c hc),
    List.reverse_reverse]

theorem pyStrip_idem (l : List Char) : pyStrip (pyStrip l) = pyStrip l :=
  pyStrip_eq_self_of_ends (fun _ h => head?_pyStrip_nonspace h)
    (fun _ h => getLast?_pyStrip_nonspace h)

theorem take_pre {α : Type} (n : Nat) (l : List α) : l.take n <+: l :=
  ⟨l.drop n, List.take_append_drop n l⟩

theorem pyStrip_isInfix (l : List Char) : pyStrip l <:+: l := by
  have h1 : pyStrip l <+: l.dropWhile pySpace := by
    have hs : (l.dropWhile pySpace).reverse.dropWhile pySpace <:+
        (l.dropWhile pySpace).reverse := List.dropWhile_suffix pySpace
    obtain ⟨t, ht⟩ := hs
    refine ⟨t.reverse, ?_⟩
    show ((l.dropWhile pySpace).reverse.dropWhile pySpace).reverse ++ t.reverse =
      l.dropWhile pySpace
    rw [← List.reverse_append, ht, List.reverse_reverse]
  exact h1.isInfix.trans (List.dropWhile_suffix pySpace).isInfix

theorem mem_occList {hay needle : List Char} {i : Nat} :
    i ∈ occList hay needle ↔ i ≤ hay.length ∧ needle.isPrefixOf (hay.drop i) = true := by
  simp [occList, List.mem_filter, List.mem_range, Nat.lt_succ_iff]

theorem pyContains_iff {hay needle : List Char} :
    pyContains hay needle = true ↔ needle <:+: hay := by
  unfold pyContains
  rw [Bool.not_eq_true', List.isEmpty_eq_false_iff_exists_mem]
  constructor
  · rintro ⟨i, hi⟩
    rw [mem_occList] at hi
    have hpre : needle <+: hay.drop i := List.isPrefixOf_iff_prefix.mp hi.2
    exact hpre.isInfix.trans (List.drop_suffix i hay).isInfix
  · rintro ⟨s, t, hst⟩
    refine ⟨s.length, mem_occList.mpr ⟨?_, ?_⟩⟩
    · have hl : hay.length = s.length + needle.length + t.length := by
        rw [← hst]; simp [List.length_append]; omega
      omega
    · have hd : hay.drop s.length = needle ++ t := by
        rw [← hst, List.append_assoc, List.drop_left]
      rw [hd]
      exact List.isPrefixOf_iff_prefix.mpr ⟨t, rfl⟩

theorem pyContains_false_iff {hay needle : List Char} :
    pyContains hay needle = false ↔ ¬ needle <:+: hay := by
  rw [← pyContains_iff]
  simp

theorem pyContains_false_within {l₁ l₂ n : List Char} (h : l₁ <:+: l₂)
    (hc : pyContains l₂ n = false) : pyContains l₁ n = false := by
  rw [pyContains_false_iff] at hc ⊢
  exact fun hn => hc (hn.trans h)

theorem occList_pairwise (hay needle : List Char) :
    (occList hay needle).Pairwise (· < ·) :=
  (List.pairwise_lt_range _).filter _

theorem pyFind_min {hay needle : List Char} {i : Nat} (h : pyFind hay needle = some i) :
    ∀ j ∈ occList hay needle, i ≤ j := by
  unfold pyFind at h
  intro j hj
  cases ho : occList hay needle with
  | nil => rw [ho] at hj; exact absurd hj (List.not_mem_nil j)
  | cons a rest =>
    rw [ho] at h hj
    have ha : a = i := by simpa using h
    have hp := occList_pairwise hay needle
    rw [ho] at hp
    rcases List.mem_cons.mp hj with rfl | hr
    · omega
    · have := (List.pairwise_cons.mp hp).1 j hr
      omega

theorem pyFind_mem {hay needle : List Char} {i : Nat} (h : pyFind hay needle = some i) :
    i ≤ hay.length ∧ needle.isPrefixOf (hay.drop i) = true := by
  unfold pyFind at h
  cases ho : occList hay needle with
  | nil => rw [ho] at h; exact absurd h (by simp)
  | cons a rest =>
    rw [ho] at h
    have ha : a = i := by simpa using h
    have : i ∈ occList hay needle := by rw [ho, ha.symm]; exact List.mem_cons_self a rest
    exact mem_occList.mp this

theorem pyFind_isSome_of_contains {hay needle : List Char}
    (h : pyContains hay needle = true) : ∃ i, pyFind hay needle = some i := by
  unfold pyContains at h
  rw [Bool.not_eq_true'] at h
  unfold pyFind
  cases ho : occList hay needle with
  | nil => rw [ho] at h; exact absurd h (by simp)
  | cons a rest => exact ⟨a, rfl⟩

theorem notContains_take_of_pyFind {hay needle : List Char} {i : Nat}
    (hne : needle ≠ []) (h : pyFind hay needle = some i) :
    pyContains (hay.take i) needle = false := by
  rw [pyContains_false_iff]
  rintro ⟨s, t, hst⟩
  have hiLen : i ≤ hay.length := (pyFind_mem h).1
  have htake : (hay.take i).length = i := by
    rw [List.length_take]; omega
  have hlen : s.length + needle.length + t.length = i := by
    have hc := congrArg List.length hst
    rw [htake] at hc
    simp [List.length_append] at hc
    omega
  have hlt : s.length < i := by
    have : 1 ≤ needle.length := by
      cases needle with
      | nil => exact absurd rfl hne
      | cons _ _ => simp
    omega
  have hdropPre : needle.isPrefixOf (hay.drop s.length) = true := by
    obtain ⟨rest, hrest⟩ : hay.take i <+: hay := take_pre i hay
    have hhay : hay = s ++ (needle ++ (t ++ rest)) := by
      rw [← hrest, ← hst]; simp [List.append_assoc]
    rw [hhay, List.drop_left]
    exact List.isPrefixOf_iff_prefix.mpr ⟨t ++ rest, by simp [List.append_assoc]⟩
  have hmem : s.length ∈ occList hay needle :=
    mem_occList.mpr ⟨by omega, hdropPre⟩
  have := pyFind_min h _ hmem
  omega

theorem pyContains_of_isPrefixOf {hay needle : List Char}
    (h : needle.isPrefixOf hay = true) : pyContains hay needle = true := by
  unfold pyContains
  rw [Bool.not_eq_true', List.isEmpty_eq_false_iff_exists_mem]
  exact ⟨0, mem_occList.mpr ⟨Nat.zero_le _, by simpa using h⟩⟩

theorem pyFind_zero_of_isPrefixOf {hay needle : List Char}
    (h : needle.isPrefixOf hay = true) : pyFind hay needle = some 0 := by
  obtain ⟨i, hi⟩ := pyFind_isSome_of_contains (pyContains_of_isPrefixOf h)
  have h0 : 0 ∈ occList hay needle := mem_occList.mpr ⟨Nat.zero_le _, by simpa using h⟩
  have hle := pyFind_min hi 0 h0
  have hz : i = 0 := Nat.le_zero.mp hle
  rw [hz] at hi
  exact hi

/-! ### Toolkit: title-cleaner phases -/

theorem takeBefore_isInfix (hay needle : List Char) : takeBefore hay needle <:+: hay := by
  unfold takeBefore
  cases pyFind hay needle with
  | none => exact List.infix_refl hay
  | some i => exact (take_pre i hay).isInfix

theorem sepCutStep_isInfix (t sep : List Char) : sepCutStep t sep <:+: t := by
  unfold sepCutStep
  by_cases hc : pyContains t sep = true
  · simp only [hc, if_true]
    exact (pyStrip_isInfix _).trans (takeBefore_isInfix t sep)
  · simp only [Bool.not_eq_true] at hc
    simp [hc]

theorem sepCutStep_id_of_not {t sep : List Char} (h : pyContains t sep = false) :
    sepCutStep t sep = t := by
  simp [sepCutStep, h]

theorem sepCutStep_noOcc {t sep : List Char} (hne : sep ≠ []) :
    pyContains (sepCutStep t sep) sep = false := by
  unfold sepCutStep
  by_cases hc : pyContains t sep = true
  · simp only [hc, if_true]
    obtain ⟨i, hi⟩ := pyFind_isSome_of_contains hc
    unfold takeBefore
    rw [hi]
    exact pyContains_false_within (pyStrip_isInfix _) (notContains_take_of_pyFind hne hi)
  · simp only [Bool.not_eq_true] at hc
    simp [hc]

theorem termCutStep_isInfix (t term : List Char) : termCutStep t term <:+: t := by
  unfold termCutStep
  by_cases hc : pyContains (pyLower t) term = true
  · simp only [hc, if_true]
    cases hf : pyFind (pyLower t) term with
    | none => exact List.infix_refl t
    | some i => exact (pyStrip_isInfix _).trans (take_pre i t).isInfix
  · simp only [Bool.not_eq_true] at hc
    simp [hc]

theorem termCutStep_id_of_not {t term : List Char} (h : pyContains (pyLower t) term = false) :
    termCutStep t term = t := by
  simp [termCutStep, h]

theorem pyLower_take (t : List Char) (i : Nat) : pyLower (t.take i) = (pyLower t).take i := by
  simp [pyLower, List.map_take]

theorem termCutStep_noOcc {t term : List Char} (hne : term ≠ []) :
    pyContains (pyLower (termCutStep t term)) term = false := by
  unfold termCutStep
  by_cases hc : pyContains (pyLower t) term = true
  · simp only [hc, if_true]
    obtain ⟨i, hi⟩ := pyFind_isSome_of_contains hc
    rw [hi]
    have hinf : pyLower (pyStrip (t.take i)) <:+: (pyLower t).take i := by
      rw [← pyLower_take]
      exact (pyStrip_isInfix _).map pyLowerChar
    exact pyContains_false_within hinf (notContains_take_of_pyFind hne hi)
  · simp only [Bool.not_eq_true] at hc
    simp [hc]

theorem cutLastIn_isInfix (t : List Char) : cutLastIn t <:+: t := by
  unfold cutLastIn
  by_cases hc : pyContains (pyLower t) " in ".toList = true
  · rw [hc]
    simp only [if_true]
    cases hf : pyRFind (pyLower t) " in ".toList with
    | none => exact List.infix_refl t
    | some i => exact (pyStrip_isInfix _).trans (take_pre i t).isInfix
  · simp only [Bool.not_eq_true] at hc
    rw [hc]
    simp [List.infix_refl]

theorem cutLastIn_id_of_not {t : List Char}
    (h : pyContains (pyLower t) " in ".toList = false) : cutLastIn t = t := by
  unfold cutLastIn
  rw [h]
  simp

theorem cutTrailingParen_isInfix (t : List Char) : cutTrailingParen t <:+: t := by
  unfold cutTrailingParen
  by_cases hc : (pyEndsWith t [')'] = true ∧ pyContains t ['('] = true)
  · simp only [if_pos hc]
    cases hf : pyRFind t ['('] with
    | none => exact List.infix_refl t
    | some i => exact (pyStrip_isInfix _).trans (take_pre i t).isInfix
  · simp only [if_neg hc]
    exact List.infix_refl t

theorem cutTrailingParen_id_of_not {t : List Char}
    (h : ¬(pyEndsWith t [')'] = true ∧ pyContains t ['('] = true)) :
    cutTrailingParen t = t := by
  simp only [cutTrailingParen, if_neg h]

theorem foldl_sepCut_isInfix (seps : List (List Char)) (t : List Char) :
    seps.foldl sepCutStep t <:+: t := by
  induction seps generalizing t with
  | nil => exact List.infix_refl t
  | cons s rest ih =>
    exact (ih (sepCutStep t s)).trans (sepCutStep_isInfix t s)

theorem foldl_termCut_isInfix (terms : List (List Char)) (t : List Char) :
    terms.foldl termCutStep t <:+: t := by
  induction terms generalizing t with
  | nil => exact List.infix_refl t
  | cons s rest ih =>
    exact (ih (termCutStep t s)).trans (termCutStep_isInfix t s)

theorem foldl_sepCut_noOcc (seps : List (List Char)) (t : List Char) :
    ∀ sep ∈ seps, sep ≠ [] → pyContains (seps.foldl sepCutStep t) sep = false := by
  induction seps generalizing t with
  | nil => intro sep h; exact absurd h (List.not_mem_nil sep)
  | cons s rest ih =>
    intro sep hmem hne
    rcases List.mem_cons.mp hmem with rfl | hr
    · exact pyContains_false_within (foldl_sepCut_isInfix rest (sepCutStep t sep))
        (sepCutStep_noOcc hne)
    · exact ih (sepCutStep t s) sep hr hne

theorem foldl_termCut_noOcc (terms : List (List Char)) (t : List Char) :
    ∀ term ∈ terms, term ≠ [] →
      pyContains (pyLower (terms.foldl termCutStep t)) term = false := by
  induction terms generalizing t with
  | nil => intro term h; exact absurd h (List.not_mem_nil term)
  | cons s rest ih =>
    intro term hmem hne
    rcases List.mem_cons.mp hmem with rfl | hr
    · exact pyContains_false_within
        ((foldl_termCut_isInfix rest (termCutStep t term)).map pyLowerChar)
        (termCutStep_noOcc hne)
    · exact ih (termCutStep t s) term hr hne

theorem pyStrip_preserved_of_stripOrId {t u : List Char}
    (h : u = t ∨ ∃ y, u = pyStrip y) (ht : pyStrip t = t) : pyStrip u = u := by
  rcases h with rfl | ⟨y, rfl⟩
  · exact ht
  · exact pyStrip_idem y

theorem sepCutStep_stripOrId (t sep : List Char) :
    sepCutStep t sep = t ∨ ∃ y, sepCutStep t sep = pyStrip y := by
  unfold sepCutStep
  by_cases hc : pyContains t sep = true
  · exact Or.inr ⟨takeBefore t sep, by simp [hc]⟩
  · simp only [Bool.not_eq_true] at hc
    exact Or.inl (by simp [hc])

theorem termCutStep_stripOrId (t term : List Char) :
    termCutStep t term = t ∨ ∃ y, termCutStep t term = pyStrip y := by
  unfold termCutStep
  by_cases hc : pyContains (pyLower t) term = true
  · cases hf : pyRFind (pyLower t) term with
    | none =>
      cases hf2 : pyFind (pyLower t) term with
      | none => exact Or.inl (by simp [hc, hf2])
      | some i => exact Or.inr ⟨t.take i, by simp [hc, hf2]⟩
    | some i =>
      cases hf2 : pyFind (pyLower t) term with
      | none => exact Or.inl (by simp [hc, hf2])
      | some j => exact Or.inr ⟨t.take j, by simp [hc, hf2]⟩
  · simp only [Bool.not_eq_true] at hc
    exact Or.inl (by simp [hc])

theorem cutLastIn_stripOrId (t : List Char) :
    cutLastIn t = t ∨ ∃ y, cutLastIn t = pyStrip y := by
  unfold cutLastIn
  by_cases hc : pyContains (pyLower t) " in ".toList = true
  · cases hf : pyRFind (pyLower t) " in ".toList with
    | none => exact Or.inl (by rw [hc]; simp)
    | some i => exact Or.inr ⟨t.take i, by rw [hc]; simp⟩
  · simp only [Bool.not_eq_true] at hc
    exact Or.inl (by rw [hc]; simp)

theorem cutTrailingParen_stripOrId (t : List Char) :
    cutTrailingParen t = t ∨ ∃ y, cutTrailingParen t = pyStrip y := by
  unfold cutTrailingParen
  by_cases hc : (pyEndsWith t [')'] = true ∧ pyContains t ['('] = true)
  · cases hf : pyRFind t ['('] with
    | none => exact Or.inl (by simp [if_pos hc, hf])
    | some i => exact Or.inr ⟨t.take i, by simp [if_pos hc, hf]⟩
  · exact Or.inl (by simp [if_neg hc])

theorem foldl_sepCut_stripped (seps : List (List Char)) {t : List Char}
    (ht : pyStrip t = t) : pyStrip (seps.foldl sepCutStep t) = seps.foldl sepCutStep t := by
  induction seps generalizing t with
  | nil => exact ht
  | cons s rest ih =>
    exact ih (pyStrip_preserved_of_stripOrId (sepCutStep_stripOrId t s) ht)

theorem foldl_termCut_stripped (terms : List (List Char)) {t : List Char}
    (ht : pyStrip t = t) :
    pyStrip (terms.foldl termCutStep t) = terms.foldl termCutStep t := by
  induction terms generalizing t with
  | nil => exact ht
  | cons s rest ih =>
    exact ih (pyStrip_preserved_of_stripOrId (termCutStep_stripOrId t s) ht)

theorem foldl_sepCut_id (seps : List (List Char)) {t : List Char}
    (h : ∀ sep ∈ seps, pyContains t sep = false) : seps.foldl sepCutStep t = t := by
  induction seps with
  | nil => rfl
  | cons s rest ih =>
    have hs : sepCutStep t s = t := sepCutStep_id_of_not (h s (List.mem_cons_self s rest))
    simp only [List.foldl_cons, hs]
    exact ih (fun sep hm => h sep (List.mem_cons_of_mem s hm))

theorem foldl_termCut_id (terms : List (List Char)) {t : List Char}
    (h : ∀ term ∈ terms, pyContains (pyLower t) term = false) :
    terms.foldl termCutStep t = t := by
  induction terms with
  | nil => rfl
  | cons s rest ih =>
    have hs : termCutStep t s = t := termCutStep_id_of_not (h s (List.mem_cons_self s rest))
    simp only [List.foldl_cons, hs]
    exact ih (fun term hm => h term (List.mem_cons_of_mem s hm))

theorem titleSeparators_ne_nil : ∀ s ∈ titleSeparators, s ≠ [] := by decide

theorem titleTerms_ne_nil : ∀ s ∈ titleTerms, s ≠ [] := by decide

/-- Inversion for a successful title cleaning. -/

theorem cleanTitle_eq_some {r t : List Char} (h : cleanTitle (some r) = some t) :
    r.isEmpty = false ∧
    t = applyTermCuts (cutTrailingParen (cutLastIn (applySepCuts (pyStrip r)))) ∧
    t ≠ [] := by
  simp only [cleanTitle] at h
  by_cases hr : r.isEmpty = true
  · rw [if_pos hr] at h
    exact absurd h (by simp)
  · rw [if_neg hr] at h
    by_cases hu : (applyTermCuts (cutTrailingParen (cutLastIn (applySepCuts (pyStrip r))))).isEmpty = true
    · rw [if_pos hu] at h
      exact absurd h (by simp)
    · rw [if_neg hu] at h
      have ht := (Option.some_inj.mp h).symm
      refine ⟨Bool.of_not_eq_true hr, ht, ?_⟩
      rw [ht]
      intro he
      exact hu (by rw [he]; rfl)

/-- Structural facts about every successful title-cleaning output: it is
nonempty, whitespace-trimmed, free of the three separators, and free of
the four employment-type keywords (case-insensitively). -/

theorem cleanTitle_facts {r t : List Char} (h : cleanTitle (some r) = some t) :
    t ≠ [] ∧ pyStrip t = t ∧
    (∀ sep ∈ titleSeparators, pyContains t sep = false) ∧
    (∀ term ∈ titleTerms, pyContains (pyLower t) term = false) := by
  have h3 := cleanTitle_eq_some h
  have ht := h3.2.1
  refine ⟨h3.2.2, ?_, ?_, ?_⟩
  · rw [ht]
    exact foldl_termCut_stripped _
      (pyStrip_preserved_of_stripOrId (cutTrailingParen_stripOrId _)
        (pyStrip_preserved_of_stripOrId (cutLastIn_stripOrId _)
          (foldl_sepCut_stripped _ (pyStrip_idem r))))
  · intro sep hmem
    rw [ht]
    have h1 : pyContains (applySepCuts (pyStrip r)) sep = false :=
      foldl_sepCut_noOcc _ _ sep hmem (titleSeparators_ne_nil sep hmem)
    have hinf : applyTermCuts (cutTrailingParen (cutLastIn (applySepCuts (pyStrip r)))) <:+:
        applySepCuts (pyStrip r) :=
      (foldl_termCut_isInfix _ _).trans
        ((cutTrailingParen_isInfix _).trans (cutLastIn_isInfix _))
    exact pyContains_false_within hinf h1
  · intro term hmem
    rw [ht]
    exact foldl_termCut_noOcc _ _ term hmem (titleTerms_ne_nil term hmem)

/-! ### Toolkit: titles that lower to an `"intern"`-led string -/

theorem pySpace_pyLowerChar (c : Char) : pySpace (pyLowerChar c) = pySpace c := by
  unfold pyLowerChar
  split <;> rfl

theorem pyLower_append (a b : List Char) : pyLower (a ++ b) = pyLower a ++ pyLower b :=
  List.map_append pyLowerChar a b

theorem pyLower_length (l : List Char) : (pyLower l).length = l.length :=
  List.length_map l pyLowerChar

theorem nonspace_of_pyLower_eq {a pat : List Char} (hp : pyLower a = pat)
    (hns : ∀ c ∈ pat, pySpace c = false) : ∀ c ∈ a, pySpace c = false := by
  intro c hc
  have hm : pyLowerChar c ∈ pat := hp ▸ List.mem_map_of_mem pyLowerChar hc
  rw [← pySpace_pyLowerChar]
  exact hns _ hm

/-- Stripping a list whose nonempty head block is all nonspace keeps that
block intact. -/

theorem pyStrip_append_of_nonspace {a b : List Char} (hne : a ≠ [])
    (ha : ∀ c ∈ a, pySpace c = false) : ∃ b2, pyStrip (a ++ b) = a ++ b2 := by
  have hl : (a ++ b).dropWhile pySpace = a ++ b := by
    apply dropWhile_eq_self_of_head
    intro c hc
    cases a with
    | nil => exact absurd rfl hne
    | cons x xs =>
      have hcx : x = c := by simpa using hc
      exact hcx ▸ ha x (List.mem_cons_self x xs)
  have hrevA : a.reverse.dropWhile pySpace = a.reverse := by
    apply dropWhile_eq_self_of_head
    intro c hc
    rw [List.head?_reverse] at hc
    exact ha c (List.mem_of_getLast?_eq_some hc)
  unfold pyStrip
  rw [hl, List.reverse_append, List.dropWhile_append]
  by_cases he : (b.reverse.dropWhile pySpace).isEmpty = true
  · rw [if_pos he, hrevA, List.reverse_reverse]
    exact ⟨[], by simp⟩
  · rw [if_neg he, List.reverse_append, List.reverse_reverse]
    exact ⟨(b.reverse.dropWhile pySpace).reverse, rfl⟩

theorem intern_nonspace : ∀ c ∈ "intern".toList, pySpace c = false := by decide

theorem intern_keeps_strip {t : List Char}
    (h : "intern".toList.isPrefixOf (pyLower t) = true) :
    "intern".toList.isPrefixOf (pyLower (pyStrip t)) = true := by
  obtain ⟨r, hr⟩ := List.isPrefixOf_iff_prefix.mp h
  have hlen : 6 ≤ t.length := by
    have := congrArg List.length hr
    rw [pyLower_length] at this
    simp [List.length_append] at this
    omega
  have hsplit : t = t.take 6 ++ t.drop 6 := (List.take_append_drop 6 t).symm
  have hlow6 : pyLower (t.take 6) = "intern".toList := by
    rw [pyLower_take, ← hr]
    exact List.take_left' (by decide)
  have hne6 : t.take 6 ≠ [] := by
    intro he
    have h1 := congrArg List.length he
    rw [List.length_take] at h1
    simp only [List.length_nil] at h1
    omega
  have hns := nonspace_of_pyLower_eq hlow6 intern_nonspace
  obtain ⟨b2, hb2⟩ := pyStrip_append_of_nonspace hne6 hns (b := t.drop 6)
  rw [hsplit, hb2, pyLower_append, hlow6]
  exact List.isPrefixOf_iff_prefix.mpr ⟨pyLower b2, rfl⟩

theorem intern_keeps_take {t : List Char} {i : Nat} (h6 : 6 ≤ i)
    (h : "intern".toList.isPrefixOf (pyLower t) = true) :
    "intern".toList.isPrefixOf (pyLower (t.take i)) = true := by
  obtain ⟨r, hr⟩ := List.isPrefixOf_iff_prefix.mp h
  rw [pyLower_take]
  have h6' : "intern".toList = ((pyLower t).take i).take 6 := by
    rw [List.take_take, Nat.min_def, if_pos h6, ← hr]
    exact (List.take_left' (by decide)).symm
  rw [h6']
  exact List.isPrefixOf_iff_prefix.mpr (take_pre 6 _)

theorem internship_find_cases {t : List Char}
    (h : "intern".toList.isPrefixOf (pyLower t) = true) {i : Nat}
    (hocc : "internship".toList.isPrefixOf ((pyLower t).drop i) = true) :
    i = 0 ∨ 6 ≤ i := by
  by_cases h0 : i = 0
  · exact Or.inl h0
  by_cases h6 : 6 ≤ i
  · exact Or.inr h6
  exfalso
  obtain ⟨r, hr⟩ := List.isPrefixOf_iff_prefix.mp h
  rw [← hr] at hocc
  have hi1 : 1 ≤ i := Nat.one_le_iff_ne_zero.mpr h0
  have hi5 : i < 6 := Nat.lt_of_not_le h6
  interval_cases i <;>
    simp [show "intern".toList = ['i', 'n', 't', 'e', 'r', 'n'] from rfl,
      List.cons_append, List.isPrefixOf] at hocc

theorem termCutStep_internship_cases {t : List Char}
    (h : "intern".toList.isPrefixOf (pyLower t) = true) :
    termCutStep t "internship".toList = [] ∨
      "intern".toList.isPrefixOf (pyLower (termCutStep t "internship".toList)) = true := by
  unfold termCutStep
  by_cases hc : pyContains (pyLower t) "internship".toList = true
  · rw [hc]
    simp only [if_true]
    obtain ⟨i, hi⟩ := pyFind_isSome_of_contains hc
    rw [hi]
    rcases internship_find_cases h (pyFind_mem hi).2 with h0 | h6
    · subst h0
      exact Or.inl rfl
    · exact Or.inr (intern_keeps_strip (intern_keeps_take h6 h))
  · rw [Bool.not_eq_true] at hc
    rw [hc]
    simp only [Bool.false_eq_true, if_false]
    exact Or.inr h

theorem termCutStep_intern_empties {t : List Char}
    (h : "intern".toList.isPrefixOf (pyLower t) = true) :
    termCutStep t "intern".toList = [] := by
  have hc : pyContains (pyLower t) "intern".toList = true := pyContains_of_isPrefixOf h
  have hf : pyFind (pyLower t) "intern".toList = some 0 := pyFind_zero_of_isPrefixOf h
  unfold termCutStep
  rw [hc]
  simp only [if_true]
  rw [hf]
  rfl

/-- Any title whose lowering starts with `"intern"` is emptied by the
employment-type keyword loop. -/

theorem applyTermCuts_of_intern {t : List Char}
    (h : "intern".toList.isPrefixOf (pyLower t) = true) : applyTermCuts t = [] := by
  have hunfold : applyTermCuts t =
      termCutStep (termCutStep (termCutStep (termCutStep t "internship".toList)
        "intern".toList) "contract".toList) "temporary".toList := by
    simp only [applyTermCuts, titleTerms, List.foldl_cons, List.foldl_nil]
  rw [hunfold]
  rcases termCutStep_internship_cases h with h1 | h1
  · rw [h1, show termCutStep [] "intern".toList = [] from by decide,
      show termCutStep [] "contract".toList = [] from by decide,
      show termCutStep [] "temporary".toList = [] from by decide]
  · rw [termCutStep_intern_empties h1,
      show termCutStep [] "contract".toList = [] from by decide,
      show termCutStep [] "temporary".toList = [] from by decide]

theorem pyStrip_eq_self_of_nonspace {l : List Char}
    (h : ∀ c ∈ l, pySpace c = false) : pyStrip l = l := by
  apply pyStrip_eq_self_of_ends
  · intro c hc
    apply h
    cases l with
    | nil => exact absurd hc (by simp)
    | cons a t =>
      have : a = c := by simpa using hc
      exact this ▸ List.mem_cons_self a t
  · intro c hc
    exact h c (List.mem_of_getLast?_eq_some hc)

theorem strInv_of_nonspace {l : List Char} (hne : l ≠ [])
    (h : ∀ c ∈ l, pySpace c = false) : strInv l :=
  ⟨hne, pyStrip_eq_self_of_nonspace h⟩

theorem digitChar_nonspace {d : Nat} (h : d < 10) : pySpace (digitChar d) = false := by
  interval_cases d <;> decide

theorem natDigitsAux_nonspace : ∀ (fuel n : Nat) (acc : List Char),
    (∀ c ∈ acc, pySpace c = false) → ∀ c ∈ natDigitsAux fuel n acc, pySpace c = false := by
  intro fuel
  induction fuel with
  | zero => intro n acc hacc; exact hacc
  | succ f ih =>
    intro n acc hacc c hc
    unfold natDigitsAux at hc
    by_cases hn : n < 10
    · rw [if_pos hn] at hc
      rcases List.mem_cons.mp hc with rfl | hr
      · exact digitChar_nonspace hn
      · exact hacc c hr
    · rw [if_neg hn] at hc
      refine ih (n / 10) _ ?_ c hc
      intro d hd
      rcases List.mem_cons.mp hd with rfl | hr
      · exact digitChar_nonspace (Nat.mod_lt n (by omega))
      · exact hacc d hr

theorem natDigits_nonspace (n : Nat) : ∀ c ∈ natDigits n, pySpace c = false :=
  natDigitsAux_nonspace (n + 1) n [] (by simp)

theorem natDigitsAux_ne_nil : ∀ (fuel n : Nat) (acc : List Char),
    natDigitsAux (fuel + 1) n acc ≠ [] := by
  intro fuel
  induction fuel with
  | zero =>
    intro n acc
    unfold natDigitsAux
    by_cases hn : n < 10
    · rw [if_pos hn]; simp
    · rw [if_neg hn]; unfold natDigitsAux; simp
  | succ f ih =>
    intro n acc
    unfold natDigitsAux
    by_cases hn : n < 10
    · rw [if_pos hn]; simp
    · rw [if_neg hn]; exact ih (n / 10) _

theorem natDigits_ne_nil (n : Nat) : natDigits n ≠ [] := natDigitsAux_ne_nil n n []

theorem intDigits_nonspace (i : Int) : ∀ c ∈ intDigits i, pySpace c = false := by
  unfold intDigits
  by_cases hi : i < 0
  · rw [if_pos hi]
    intro c hc
    rcases List.mem_cons.mp hc with rfl | hr
    · decide
    · exact natDigits_nonspace _ c hr
  · rw [if_neg hi]
    exact natDigits_nonspace _

theorem intDigits_ne_nil (i : Int) : intDigits i ≠ [] := by
  unfold intDigits
  by_cases hi : i < 0
  · rw [if_pos hi]; simp
  · rw [if_neg hi]; exact natDigits_ne_nil _

theorem toK_strInv (q : ℚ) : strInv (toK q) := by
  refine strInv_of_nonspace (by simp [toK]) ?_
  intro c hc
  rcases List.mem_append.mp hc with hl | hr
  · exact intDigits_nonspace _ c hl
  · have : c = 'k' := by simpa using hr
    subst this; decide

theorem mem_stripTrailingZeros {l : List Char} {c : Char}
    (h : c ∈ stripTrailingZeros l) : c ∈ l := by
  unfold stripTrailingZeros at h
  rw [List.mem_reverse] at h
  have := (List.dropWhile_sublist _).mem h
  rwa [List.mem_reverse] at this

theorem mem_padLeftZeros {l : List Char} {n : Nat} {c : Char}
    (h : c ∈ padLeftZeros l n) : c = '0' ∨ c ∈ l := by
  unfold padLeftZeros at h
  rcases List.mem_append.mp h with hl | hr
  · exact Or.inl (List.eq_of_mem_replicate hl)
  · exact Or.inr hr

theorem fmtGRender_nonspace (e : Int) (ds : List Char)
    (hds : ∀ d ∈ ds, pySpace d = false) : ∀ c ∈ fmtGRender e ds, pySpace c = false := by
  intro c hc
  unfold fmtGRender at hc
  split at hc
  · split at hc
    · rcases List.mem_append.mp hc with hl | hr
      · exact hds c ((take_pre _ _).sublist.mem hl)
      · split at hr
        · exact absurd hr (by simp)
        · rcases List.mem_cons.mp hr with rfl | hr2
          · decide
          · exact hds c ((List.drop_suffix _ _).sublist.mem (mem_stripTrailingZeros hr2))
    · rcases List.mem_cons.mp hc with rfl | hr
      · decide
      · rcases List.mem_cons.mp hr with rfl | hr2
        · decide
        · rcases List.mem_append.mp (mem_stripTrailingZeros hr2) with hl | hr3
          · have hz := List.eq_of_mem_replicate hl
            rw [hz]
            decide
          · exact hds c hr3
  · rcases List.mem_append.mp hc with hl | hr
    · rcases List.mem_append.mp hl with h1 | h2
      · exact hds c ((take_pre _ _).sublist.mem h1)
      · split at h2
        · exact absurd h2 (by simp)
        · rcases List.mem_cons.mp h2 with rfl | h3
          · decide
          · exact hds c ((List.drop_suffix _ _).sublist.mem (mem_stripTrailingZeros h3))
    · rcases List.mem_cons.mp hr with rfl | h2
      · decide
      · rcases List.mem_cons.mp h2 with rfl | h3
        · split
          · decide
          · decide
        · rcases mem_padLeftZeros h3 with rfl | h4
          · decide
          · exact natDigits_nonspace _ c h4

theorem fmtGRender_ne_nil (e : Int) {ds : List Char} (hne : ds ≠ []) :
    fmtGRender e ds ≠ [] := by
  unfold fmtGRender
  split
  · split
    · intro h
      rcases List.append_eq_nil.mp h with ⟨h1, _⟩
      cases hd : ds with
      | nil => exact hne hd
      | cons a t =>
        rw [hd] at h1
        simp [List.take_succ_cons] at h1
    · simp
  · intro h
    rcases List.append_eq_nil.mp h with ⟨_, h2⟩
    simp at h2

theorem fmtGPos_nonspace (q : ℚ) : ∀ c ∈ fmtGPos q, pySpace c = false := by
  unfold fmtGPos
  split
  · exact fmtGRender_nonspace _ _ (natDigits_nonspace _)
  · exact fmtGRender_nonspace _ _ (natDigits_nonspace _)

theorem fmtGPos_ne_nil (q : ℚ) : fmtGPos q ≠ [] := by
  unfold fmtGPos
  split
  · exact fmtGRender_ne_nil _ (natDigits_ne_nil _)
  · exact fmtGRender_ne_nil _ (natDigits_ne_nil _)

theorem fmtG_strInv (q : ℚ) : strInv (fmtG q) := by
  unfold fmtG
  split
  · refine strInv_of_nonspace (by simp) ?_
    intro c hc
    have hcc : c = '0' := by simpa using hc
    rw [hcc]
    decide
  · split
    · refine strInv_of_nonspace (by simp) ?_
      intro c hc
      rcases List.mem_cons.mp hc with rfl | hr
      · decide
      · exact fmtGPos_nonspace _ c hr
    · exact strInv_of_nonspace (fmtGPos_ne_nil q) (fmtGPos_nonspace q)

theorem pyStrFloatNonneg_nonspace (q : ℚ) : ∀ c ∈ pyStrFloatNonneg q, pySpace c = false := by
  intro c hc
  simp only [pyStrFloatNonneg] at hc
  split at hc
  · exact intDigits_nonspace _ c hc
  · split at hc
    · rcases List.mem_append.mp hc with hl | hr
      · exact (mem_padLeftZeros ((take_pre _ _).sublist.mem hl)).elim
          (fun h => by subst h; decide) (fun h => natDigits_nonspace _ c h)
      · rcases List.mem_cons.mp hr with rfl | h2
        · decide
        · exact (mem_padLeftZeros ((List.drop_suffix _ _).sublist.mem h2)).elim
            (fun h => by subst h; decide) (fun h => natDigits_nonspace _ c h)
    · rcases List.mem_append.mp hc with hl | hr
      · exact intDigits_nonspace _ c hl
      · rcases List.mem_cons.mp hr with rfl | h2
        · decide
        · exact natDigits_nonspace _ c h2

theorem pyStrFloatNonneg_ne_nil (q : ℚ) : pyStrFloatNonneg q ≠ [] := by
  simp only [pyStrFloatNonneg]
  split
  · exact intDigits_ne_nil _
  · split
    · intro h
      rcases List.append_eq_nil.mp h with ⟨_, h2⟩
      simp at h2
    · intro h
      rcases List.append_eq_nil.mp h with ⟨h1, _⟩
      exact intDigits_ne_nil _ h1

theorem pyStrFloat_strInv (q : ℚ) : strInv (pyStrFloat q) := by
  unfold pyStrFloat
  split
  · refine strInv_of_nonspace (by simp) ?_
    intro c hc
    rcases List.mem_cons.mp hc with rfl | hr
    · decide
    · exact pyStrFloatNonneg_nonspace _ c hr
  · exact strInv_of_nonspace (pyStrFloatNonneg_ne_nil q) (pyStrFloatNonneg_nonspace q)

theorem strInv_mid {l1 l2 : List Char} (h1 : ∀ c ∈ l1, pySpace c = false)
    (h2 : ∀ c ∈ l2, pySpace c = false) {sep : Char} (hsep : pySpace sep = false) :
    strInv (l1 ++ sep :: l2) := by
  refine strInv_of_nonspace (by simp) ?_
  intro c hc
  rcases List.mem_append.mp hc with hl | hr
  · exact h1 c hl
  · rcases List.mem_cons.mp hr with rfl | h3
    · exact hsep
    · exact h2 c h3

theorem strInv_pyStrip_of_ne {l : List Char} (h : pyStrip l ≠ []) : strInv (pyStrip l) :=
  ⟨h, pyStrip_idem l⟩

theorem kRange_strInv (a b : ℚ) :
    strInv (intDigits (floorDiv1000 a) ++ '-' :: intDigits (floorDiv1000 b) ++ ['k']) := by
  refine strInv_of_nonspace (by simp) ?_
  intro c hc
  rcases List.mem_append.mp hc with hl | hr
  · rcases List.mem_append.mp hl with h1 | h2
    · exact intDigits_nonspace _ c h1
    · rcases List.mem_cons.mp h2 with rfl | h3
      · decide
      · exact intDigits_nonspace _ c h3
  · have hk : c = 'k' := by simpa using hr
    rw [hk]; decide

theorem fmtG_nonspace (q : ℚ) : ∀ c ∈ fmtG q, pySpace c = false := by
  unfold fmtG
  split
  · intro c hc
    have hc0 : c = '0' := by simpa using hc
    rw [hc0]
    decide
  · split
    · intro c hc
      rcases List.mem_cons.mp hc with rfl | hr
      · decide
      · exact fmtGPos_nonspace _ c hr
    · exact fmtGPos_nonspace q

theorem normalizeSalaryText_strInv {text out : List Char}
    (h : normalizeSalaryText text = some out) : strInv out := by
  simp only [normalizeSalaryText] at h
  split at h
  · exact absurd h (by simp)
  · rename_i hraw
    have hne2 : pyStrip text ≠ [] := by
      intro he
      rw [he] at hraw
      exact hraw rfl
    have hrawInv : strInv (pyStrip text) := strInv_pyStrip_of_ne hne2
    repeat
      first
      | (rw [← Option.some_inj.mp h]
         first
         | exact hrawInv
         | exact strInv_mid (fmtG_nonspace _) (fmtG_nonspace _) (by decide)
         | exact fmtG_strInv _
         | exact kRange_strInv _ _
         | exact toK_strInv _)
      | split at h

theorem formatSalaryRange_strInv {minV maxV unit : Option Json} {out : List Char}
    (h : formatSalaryRange minV maxV unit = some out) : strInv out := by
  simp only [formatSalaryRange] at h
  repeat
    first
    | (rw [← Option.some_inj.mp h]
       exact kRange_strInv _ _)
    | exact Option.noConfusion h
    | split at h

theorem formatSalaryValue_strInv {rv unit : Option Json} {out : List Char}
    (h : formatSalaryValue rv unit = some out) : strInv out := by
  simp only [formatSalaryValue] at h
  repeat
    first
    | exact normalizeSalaryText_strInv h
    | (rw [← Option.some_inj.mp h]
       first
       | exact strInv_of_nonspace (by simp) (fun c hc => by
           rcases List.mem_append.mp hc with hl | hr
           · exact intDigits_nonspace _ c hl
           · have hk : c = 'k' := by simpa using hr
             rw [hk]; decide)
       | exact strInv_of_nonspace (intDigits_ne_nil _) (intDigits_nonspace _)
       | exact pyStrFloat_strInv _)
    | exact Option.noConfusion h
    | split at h

theorem normalizeSalary_strInv {job : List (String × Json)} {out : List Char}
    (h : normalizeSalary job = some out) : strInv out := by
  simp only [normalizeSalary] at h
  repeat
    first
    | exact formatSalaryValue_strInv h
    | (rename_i hr
       rw [← Option.some_inj.mp h]
       exact formatSalaryRange_strInv hr)
    | exact Option.noConfusion h
    | split at h

theorem findWorkModeInText_strInv {text out : List Char}
    (h : findWorkModeInText text = some out) : strInv out := by
  simp only [findWorkModeInText] at h
  repeat
    first
    | (rw [← Option.some_inj.mp h]
       exact ⟨by decide, by decide⟩)
    | exact Option.noConfusion h
    | split at h

theorem normalizeWorkMode_strInv {job : List (String × Json)} {out : List Char}
    (h : normalizeWorkMode job = some out) : strInv out := by
  simp only [normalizeWorkMode] at h
  repeat
    first
    | (rw [← Option.some_inj.mp h]
       exact ⟨by decide, by decide⟩)
    | exact Option.noConfusion h
    | split at h

theorem splitLinkedin_fst_strInv {raw : Option (List Char)} {out : List Char}
    (h : (splitLinkedinHiringTitle raw).1 = some out) : strInv out := by
  simp only [splitLinkedinHiringTitle] at h
  repeat
    first
    | (rename_i hcut
       rw [← Option.some_inj.mp h]
       exact strInv_pyStrip_of_ne (by
         intro he
         rw [he] at hcut
         exact hcut rfl))
    | exact Option.noConfusion h
    | split at h

theorem splitLinkedin_snd_strInv {raw : Option (List Char)} {out : List Char}
    (h : (splitLinkedinHiringTitle raw).2 = some out) : strInv out := by
  simp only [splitLinkedinHiringTitle] at h
  repeat
    first
    | (rename_i hcut
       rw [← Option.some_inj.mp h]
       exact strInv_pyStrip_of_ne (by
         intro he
         rw [he] at hcut
         exact hcut rfl))
    | exact Option.noConfusion h
    | split at h

theorem string_ne_empty_toList {t : String} (h : ¬ t = "") : t.toList ≠ [] := by
  intro he
  apply h
  cases t with
  | mk data => cases data with
    | nil => rfl
    | cons a l => exact absurd he (by simp [String.toList])

theorem firstText_strInv {doc : Doc} (hwf : DocWF doc) {sels : List String}
    {out : List Char} (h : firstText doc sels = some out) : strInv out := by
  obtain ⟨sel, hmem, hsel⟩ := List.exists_of_findSome?_eq_some h
  revert hsel
  cases hst : doc.selText sel with
  | none => intro hsel; exact absurd hsel (by simp)
  | some t =>
    intro hsel
    simp only [] at hsel
    by_cases ht : t = ""
    · rw [if_pos ht] at hsel
      exact absurd hsel (by simp)
    · rw [if_neg ht] at hsel
      have hout : t.toList = out := Option.some_inj.mp hsel
      rw [← hout]
      exact ⟨string_ne_empty_toList ht, hwf sel t hst⟩

theorem locTail_shape {l st t4 : List Char} (h : locTail l = some (st, t4)) :
    ∃ a b, st = [a, b] ∧ isUpperCh a = true ∧ isUpperCh b = true := by
  unfold locTail at h
  split at h
  · split at h
    · split at h
      · rename_i hcond
        have hp := Option.some_inj.mp h
        exact ⟨_, _, (congrArg Prod.fst hp).symm, hcond.1, hcond.2.1⟩
      · exact Option.noConfusion h
    · exact Option.noConfusion h
  · exact Option.noConfusion h

theorem locMatchCore_shape {l g1 st rest : List Char}
    (h : locMatchCore l = some (g1, st, rest)) :
    (∃ c, g1.head? = some c ∧ isUpperCh c = true) ∧
      ∃ a b, st = [a, b] ∧ isUpperCh b = true := by
  unfold locMatchCore at h
  split at h
  · rename_i c tl
    split at h
    · rename_i hup
      split at h
      · exact Option.noConfusion h
      · obtain ⟨p, hpmem, hfp⟩ := List.exists_of_findSome?_eq_some h
        revert hfp
        cases htail : locTail p.2 with
        | none => intro hfp; exact Option.noConfusion hfp
        | some stt4 =>
          intro hfp
          obtain ⟨st', t4'⟩ := stt4
          simp only [] at hfp
          have hp := Option.some_inj.mp hfp
          have hg : c :: tl.takeWhile isAsciiAlpha ++ p.1 = g1 := congrArg Prod.fst hp
          have hst : st' = st := congrArg Prod.fst (congrArg Prod.snd hp)
          obtain ⟨a, b, hab, hua, hub⟩ := locTail_shape htail
          refine ⟨⟨c, ?_, hup⟩, a, b, ?_, hub⟩
          · rw [← hg]
            rfl
          · rw [← hst]
            exact hab
    · exact Option.noConfusion h
  · exact Option.noConfusion h

theorem locMatchAt_shape {prevC : Option Char} {l g1 st rest : List Char}
    (h : locMatchAt prevC l = some (g1, st, rest)) :
    (∃ c, g1.head? = some c ∧ isUpperCh c = true) ∧
      ∃ a b, st = [a, b] ∧ isUpperCh b = true := by
  unfold locMatchAt at h
  split at h
  · split at h
    · exact Option.noConfusion h
    · exact locMatchCore_shape h
  · exact locMatchCore_shape h

theorem isUpperCh_nonspace {c : Char} (h : isUpperCh c = true) : pySpace c = false := by
  cases hs : pySpace c
  · rfl
  · exfalso
    simp only [pySpace, Bool.or_eq_true, decide_eq_true_eq] at hs
    rcases hs with ((((h1 | h1) | h1) | h1) | h1) | h1 <;> subst h1 <;>
      exact absurd h (by decide)

theorem locHit_strInv {g1 st : List Char}
    (hg : ∃ c, g1.head? = some c ∧ isUpperCh c = true)
    (hst : ∃ a b, st = [a, b] ∧ isUpperCh b = true) :
    strInv (g1 ++ ',' :: ' ' :: st) := by
  obtain ⟨c, hc, hcu⟩ := hg
  obtain ⟨a, b, rfl, hbu⟩ := hst
  refine ⟨by simp, pyStrip_eq_self_of_ends ?_ ?_⟩
  · intro d hd
    rw [List.head?_append, hc] at hd
    have hdc : c = d := by simpa using hd
    rw [← hdc]
    exact isUpperCh_nonspace hcu
  · intro d hd
    rw [List.getLast?_append] at hd
    have hb : (',' :: ' ' :: [a, b]).getLast? = some b := rfl
    rw [hb] at hd
    have hdb : b = d := by simpa using hd
    rw [← hdb]
    exact isUpperCh_nonspace hbu

theorem locScanAux_strInv : ∀ (fuel : Nat) (prev : Option Char) (l out : List Char),
    locScanAux fuel prev l = some out → strInv out := by
  intro fuel
  induction fuel with
  | zero => intro prev l out h; exact Option.noConfusion h
  | succ f ih =>
    intro prev l out h
    unfold locScanAux at h
    split at h
    · exact Option.noConfusion h
    · split at h
      · rename_i g1st hmt
        split at h
        · rename_i hin
          rw [← Option.some_inj.mp h]
          obtain ⟨hg, hst⟩ := locMatchAt_shape hmt
          exact locHit_strInv hg hst
        · split at h
          · exact ih _ _ _ h
          · exact Option.noConfusion h
      · exact ih _ _ _ h

theorem findLocationInText_strInv {text out : List Char}
    (h : findLocationInText text = some out) : strInv out := by
  simp only [findLocationInText] at h
  split at h
  · rename_i r hscan
    rw [← Option.some_inj.mp h]
    exact locScanAux_strInv _ _ _ _ hscan
  · repeat
      first
      | (rw [← Option.some_inj.mp h]
         exact ⟨by decide, by decide⟩)
      | exact Option.noConfusion h
      | split at h

theorem pyOrOpt_strInv {a b : Option (List Char)} {out : List Char}
    (ha : ∀ x, a = some x → strInv x) (hb : ∀ x, b = some x → strInv x)
    (h : pyOrOpt a b = some out) : strInv out := by
  unfold pyOrOpt at h
  split at h
  · rename_i x
    split at h
    · exact hb out h
    · exact ha out (by rw [← Option.some_inj.mp h])
  · exact hb out h

theorem cleanTitle_strInv {x : Option (List Char)} {out : List Char}
    (h : cleanTitle x = some out) : strInv out := by
  cases x with
  | none => exact Option.noConfusion h
  | some r =>
    obtain ⟨hne, hstr, _, _⟩ := cleanTitle_facts h
    exact ⟨hne, hstr⟩

theorem optStrInv_of_all {o : Option (List Char)}
    (h : ∀ x, o = some x → strInv x) : optStrInv o := by
  cases o with
  | none => trivial
  | some t => exact h t rfl

theorem scrapeHeuristic_inv (url : String) (doc : Doc) (hwf : DocWF doc) :
    optStrInv (scrapeHeuristic url doc).title ∧
    optStrInv (scrapeHeuristic url doc).pay ∧
    optStrInv (scrapeHeuristic url doc).work_mode ∧
    (scrapeHeuristic url doc).url = url ∧
    optJsonStrInv (scrapeHeuristic url doc).company ∧
    optStrInv (scrapeHeuristic url doc).location ∧
    (scrapeHeuristic url doc).posted = none := by
  refine ⟨?_, ?_, ?_, rfl, ?_, ?_, rfl⟩
  · exact optStrInv_of_all (fun x hx => cleanTitle_strInv hx)
  · refine optStrInv_of_all ?_
    intro x hx
    have hpay : (scrapeHeuristic url doc).pay =
        (match firstText doc paySelectors with
         | some p => normalizeSalaryText p
         | none => none) := rfl
    rw [hpay] at hx
    revert hx
    cases hft : firstText doc paySelectors with
    | none => intro hx; exact Option.noConfusion hx
    | some p =>
      intro hx
      exact normalizeSalaryText_strInv hx
  · refine optStrInv_of_all ?_
    intro x hx
    have hwm : (scrapeHeuristic url doc).work_mode =
        pyOrOpt (findWorkModeInText ((firstText doc workModeHintSelectors).getD []))
          (findWorkModeInText doc.fullText.toList) := rfl
    rw [hwm] at hx
    exact pyOrOpt_strInv (fun y hy => findWorkModeInText_strInv hy)
      (fun y hy => findWorkModeInText_strInv hy) hx
  · have hc : (scrapeHeuristic url doc).company =
        (pyOrOpt (splitLinkedinHiringTitle (pyOrOpt
            (metaContent doc "meta[property='og:title']")
            (firstText doc titleFallbackSelectors))).1
          (firstText doc companySelectors)).map (fun l => Json.str (String.mk l)) := rfl
    rw [hc]
    cases hopt : pyOrOpt (splitLinkedinHiringTitle (pyOrOpt
        (metaContent doc "meta[property='og:title']")
        (firstText doc titleFallbackSelectors))).1
        (firstText doc companySelectors) with
    | none => trivial
    | some l =>
      show strInv (String.mk l).toList
      have hl : (String.mk l).toList = l := rfl
      rw [hl]
      exact pyOrOpt_strInv (fun y hy => splitLinkedin_fst_strInv hy)
        (fun y hy => firstText_strInv hwf hy) hopt
  · refine optStrInv_of_all ?_
    intro x hx
    have hloc : (scrapeHeuristic url doc).location =
        pyOrOpt (firstText doc locationSelectors)
          (findLocationInText doc.fullText.toList) := rfl
    rw [hloc] at hx
    exact pyOrOpt_strInv (fun y hy => firstText_strInv hwf hy)
      (fun y hy => findLocationInText_strInv hy) hx

theorem scrapeStructured_inv (url : String) (doc : Doc) (job : List (String × Json)) :
    optStrInv (scrapeStructured url doc job).title ∧
    optStrInv (scrapeStructured url doc job).pay ∧
    optStrInv (scrapeStructured url doc job).work_mode ∧
    (scrapeStructured url doc job).url = url := by
  refine ⟨?_, ?_, ?_, rfl⟩
  · exact optStrInv_of_all (fun x hx => cleanTitle_strInv hx)
  · exact optStrInv_of_all (fun x hx => normalizeSalary_strInv hx)
  · refine optStrInv_of_all ?_
    intro x hx
    have hwm : (scrapeStructured url doc job).work_mode =
        (match normalizeWorkMode job with
         | some w => some w
         | none => findWorkModeInText doc.fullText.toList) := rfl
    rw [hwm] at hx
    revert hx
    cases hnm : normalizeWorkMode job with
    | none => intro hx; exact findWorkModeInText_strInv hx
    | some w =>
      intro hx
      rw [← Option.some_inj.mp hx]
      exact normalizeWorkMode_strInv hnm

/-- When the input already satisfies all the invariants the phases
establish, cleaning is the identity. -/

theorem cleanTitle_noop {t : List Char} (hne : t ≠ []) (hstr : pyStrip t = t)
    (hsep : ∀ sep ∈ titleSeparators, pyContains t sep = false)
    (hin : pyContains (pyLower t) " in ".toList = false)
    (hpar : ¬(pyEndsWith t [')'] = true ∧ pyContains t ['('] = true))
    (hterm : ∀ term ∈ titleTerms, pyContains (pyLower t) term = false) :
    cleanTitle (some t) = some t := by
  have hie : t.isEmpty = false := by
    cases t with
    | nil => exact absurd rfl hne
    | cons a l => rfl
  have h1 : applySepCuts t = t := foldl_sepCut_id _ hsep
  have h2 : applyTermCuts t = t := foldl_termCut_id _ hterm
  simp only [cleanTitle, hie, Bool.false_eq_true, if_false, hstr, h1,
    cutLastIn_id_of_not hin, cutTrailingParen_id_of_not hpar, h2]

/-- C3 counterexample: on the structured branch the company is copied
verbatim from `hiringOrganization.name`; an empty name yields an empty
string in the record, violating the claimed invariant. -/

theorem c3_counterexample :
    (scrapeGeneric "https://example.com/job" c3ExDoc).company = some (Json.str "") ∧
    ¬ recordClaimInv (scrapeGeneric "https://example.com/job" c3ExDoc) := by
  constructor
  · rfl
  · intro hinv
    have hc := hinv.2.1
    have he : (scrapeGeneric "https://example.com/job" c3ExDoc).company =
        some (Json.str "") := rfl
    rw [he] at hc
    exact hc.1 rfl

/-- C3 (amended): every field except url is a non-empty trimmed string or
absent, except that on the structured branch company and posted_date are
verbatim decoded JSON values (hence possibly empty or untrimmed) and the
structured location join may carry whitespace from address parts; on the
heuristic branch the full invariant holds, with posted_date always
absent. -/

theorem c3_inv_amended (url : String) (doc : Doc) (hwf : DocWF doc) :
    optStrInv (scrapeGeneric url doc).title ∧
    optStrInv (scrapeGeneric url doc).pay ∧
    optStrInv (scrapeGeneric url doc).work_mode ∧
    (scrapeGeneric url doc).url = url ∧
    (parseJsonldJobposting doc.scripts = none →
      optJsonStrInv (scrapeGeneric url doc).company ∧
      optStrInv (scrapeGeneric url doc).location ∧
      (scrapeGeneric url doc).posted = none) := by
  cases hp : parseJsonldJobposting doc.scripts with
  | none =>
    have hg : scrapeGeneric url doc = scrapeHeuristic url doc := by
      unfold scrapeGeneric
      rw [hp]
    obtain ⟨h1, h2, h3, h4, h5, h6, h7⟩ := scrapeHeuristic_inv url doc hwf
    rw [hg]
    exact ⟨h1, h2, h3, h4, fun _ => ⟨h5, h6, h7⟩⟩
  | some job =>
    have hg : scrapeGeneric url doc =
        (if job.isEmpty then scrapeHeuristic url doc else scrapeStructured url doc job) := by
      unfold scrapeGeneric
      rw [hp]
    rw [hg]
    by_cases hj : job.isEmpty = true
    · rw [if_pos hj]
      obtain ⟨h1, h2, h3, h4, _, _, _⟩ := scrapeHeuristic_inv url doc hwf
      refine ⟨h1, h2, h3, h4, fun hnone => ?_⟩
      exact Option.noConfusion hnone
    · rw [if_neg hj]
      obtain ⟨h1, h2, h3, h4⟩ := scrapeStructured_inv url doc job
      refine ⟨h1, h2, h3, h4, fun hnone => ?_⟩
      exact Option.noConfusion hnone

/-- Witness for C3 (amended) at a concrete well-formed document. -/

theorem c3_witness :
    optStrInv (scrapeGeneric "https://example.com/a" emptyDoc).title ∧
    optStrInv (scrapeGeneric "https://example.com/a" emptyDoc).pay ∧
    optStrInv (scrapeGeneric "https://example.com/a" emptyDoc).work_mode ∧
    (scrapeGeneric "https://example.com/a" emptyDoc).url = "https://example.com/a" ∧
    (parseJsonldJobposting emptyDoc.scripts = none →
      optJsonStrInv (scrapeGeneric "https://example.com/a" emptyDoc).company ∧
      optStrInv (scrapeGeneric "https://example.com/a" emptyDoc).location ∧
      (scrapeGeneric "https://example.com/a" emptyDoc).posted = none) :=
  c3_inv_amended "https://example.com/a" emptyDoc
    (fun _ _ h => Option.noConfusion h)

/-- C5 counterexample: the title cleaner truncates at the last
case-insensitive `" in "`, which can expose an earlier one, so a second
application truncates further. -/

theorem c5_counterexample :
    cleanTitle (cleanTitle (some "x in y in z".toList)) ≠
      cleanTitle (some "x in y in z".toList) := by decide

/-- C5 (amended): the title cleaner is idempotent on every input whose
cleaned result contains no case-insensitive `" in "` and does not both end
with `")"` and contain `"("`; in general a second application can truncate
further at those two phases. -/

theorem c5_idempotent_amended (x : Option (List Char))
    (h : ∀ t, cleanTitle x = some t →
      pyContains (pyLower t) " in ".toList = false ∧
      ¬(pyEndsWith t [')'] = true ∧ pyContains t ['('] = true)) :
    cleanTitle (cleanTitle x) = cleanTitle x := by
  cases hx : cleanTitle x with
  | none => rfl
  | some t =>
    obtain ⟨hin, hpar⟩ := h t hx
    cases x with
    | none => exact Option.noConfusion hx
    | some r =>
      obtain ⟨hne, hstr, hsep, hterm⟩ := cleanTitle_facts hx
      exact cleanTitle_noop hne hstr hsep hin hpar hterm

/-- Witness for C5 (amended) at a concrete title. -/

theorem c5_witness :
    cleanTitle (cleanTitle (some "Senior Backend Engineer - Acme Corp".toList)) =
      cleanTitle (some "Senior Backend Engineer - Acme Corp".toList) := by
  apply c5_idempotent_amended
  intro t ht
  have he : cleanTitle (some "Senior Backend Engineer - Acme Corp".toList) =
      some "Senior Backend Engineer".toList := by decide
  rw [he] at ht
  rw [← Option.some_inj.mp ht]
  exact ⟨by decide, by decide⟩

/-- C6: the cleaner cuts at each separator of its ordered list in turn
(keeping the prefix before the first occurrence of each), then truncates
at the last case-insensitive `" in "`; consequently no separator survives
in the output, and the worked example from the spec holds. -/

theorem c6_separators_then_in :
    (∀ s : List Char, cleanTitle (some s) =
      (if s.isEmpty then none
       else
         if (applyTermCuts (cutTrailingParen (cutLastIn (applySepCuts (pyStrip s))))).isEmpty
         then none
         else some (applyTermCuts (cutTrailingParen (cutLastIn (applySepCuts (pyStrip s))))))) ∧
    (∀ s t, cleanTitle (some s) = some t →
      pyContains t " | ".toList = false ∧ pyContains t " - ".toList = false ∧
        pyContains t " at ".toList = false) ∧
    cleanTitle (some "Senior Backend Engineer - Acme Corp | Remote".toList) =
      some "Senior Backend Engineer".toList := by
  refine ⟨fun s => rfl, fun s t h => ?_, by decide⟩
  have hsep := (cleanTitle_facts h).2.2.1
  exact ⟨hsep _ (by decide), hsep _ (by decide), hsep _ (by decide)⟩

/-- Witness for C6 at the worked example. -/

theorem c6_witness :
    pyContains "Senior Backend Engineer".toList " | ".toList = false ∧
    pyContains "Senior Backend Engineer".toList " - ".toList = false ∧
    pyContains "Senior Backend Engineer".toList " at ".toList = false :=
  c6_separators_then_in.2.1 "Senior Backend Engineer - Acme Corp | Remote".toList
    "Senior Backend Engineer".toList (by decide)

/-- C7: absence is contagious: the title cleaner maps absent to absent,
the hiring-title splitter maps absent to a pair of absents, and the
salary normalizer yields absent when the record has no base-salary
object. -/

theorem c7_absence_contagious :
    cleanTitle none = none ∧
    splitLinkedinHiringTitle none = (none, none) ∧
    ∀ job : List (String × Json), pyGet job "baseSalary" = none →
      normalizeSalary job = none := by
  refine ⟨rfl, rfl, ?_⟩
  intro job h
  unfold normalizeSalary
  rw [h]

/-- Witness for C7 at a record with no base-salary key. -/

theorem c7_witness :
    pyGet [("title", Json.str "Engineer")] "baseSalary" = none ∧
    normalizeSalary [("title", Json.str "Engineer")] = none :=
  ⟨rfl, c7_absence_contagious.2.2 [("title", Json.str "Engineer")] rfl⟩

/-- C10: employment-type keywords are matched as plain substrings: any
title whose lowering starts with `"intern"` (for example
`"International"`) is emptied by the keyword loop, no keyword survives
cleaning, and the spec example normalizes to absent. -/

theorem c10_keyword_substring :
    (∀ t : List Char, "intern".toList.isPrefixOf (pyLower t) = true →
      applyTermCuts t = []) ∧
    (∀ t term, term ∈ titleTerms → pyContains (pyLower (applyTermCuts t)) term = false) ∧
    cleanTitle (some "International Sales Manager".toList) = none := by
  refine ⟨fun t h => applyTermCuts_of_intern h, fun t term hm => ?_, by decide⟩
  exact foldl_termCut_noOcc _ _ term hm (titleTerms_ne_nil term hm)

/-- Witness for C10 at concrete titles. -/

theorem c10_witness :
    applyTermCuts "International".toList = [] ∧
    pyContains (pyLower (applyTermCuts "Senior Intern Manager".toList))
      "intern".toList = false :=
  ⟨c10_keyword_substring.1 "International".toList (by decide),
   c10_keyword_substring.2.1 "Senior Intern Manager".toList "intern".toList (by decide)⟩

/-- Counterexample for C1: with minValue 25, maxValue 30, unitText HOUR
the structured salary normalizer returns "25", not a min-max range, so
the maximum IS dropped outside the k-range branch. -/

theorem c1_counterexample :
    normalizeSalary c1ExJob = some "25".toList ∧
    normalizeSalary c1ExJob ≠ some "25-30 HOUR".toList ∧
    normalizeSalary c1ExJob ≠ some "25-30".toList :=
  ⟨by decide, by decide, by decide⟩

/-- C1 (corrected): when both minValue and maxValue are numbers, the
normalizer returns the floor-scaled k-range only when both are at least
1000 and the unit is yearly or absent; in every other case it falls back
to formatting the minimum alone (the maximum is dropped). -/

theorem c1_range_amended (job base v : List (String × Json)) (qmin qmax : ℚ)
    (hb : pyGet job "baseSalary" = some (Json.obj base))
    (hv : pyGet base "value" = some (Json.obj v))
    (hmin : pyGet v "minValue" = some (Json.num qmin))
    (hmax : pyGet v "maxValue" = some (Json.num qmax)) :
    normalizeSalary job =
      if 1000 ≤ qmin ∧ 1000 ≤ qmax ∧ unitIsYearish (unitTextOf (pyGet v "unitText")) = true then
        some (intDigits (floorDiv1000 qmin) ++ '-' :: intDigits (floorDiv1000 qmax) ++ ['k'])
      else formatSalaryValue (some (Json.num qmin)) (pyGet v "unitText") := by
  have hfr : formatSalaryRange (some (Json.num qmin)) (some (Json.num qmax)) (pyGet v "unitText")
      = if 1000 ≤ qmin ∧ 1000 ≤ qmax ∧ unitIsYearish (unitTextOf (pyGet v "unitText")) = true then
          some (intDigits (floorDiv1000 qmin) ++ '-' :: intDigits (floorDiv1000 qmax) ++ ['k'])
        else none := rfl
  simp only [normalizeSalary, hb, hv, hmin, hmax, hfr]
  by_cases hc : 1000 ≤ qmin ∧ 1000 ≤ qmax ∧ unitIsYearish (unitTextOf (pyGet v "unitText")) = true
  · rw [if_pos hc, if_pos hc]
  · rw [if_neg hc, if_neg hc]

/-- Witness for C1 (amended) at the 90000-120000 YEAR example. -/

theorem c1_witness :
    (normalizeSalary c1WitJob =
      if 1000 ≤ (90000 : ℚ) ∧ 1000 ≤ (120000 : ℚ) ∧
          unitIsYearish (unitTextOf (pyGet c1WitVal "unitText")) = true then
        some (intDigits (floorDiv1000 90000) ++ '-' :: intDigits (floorDiv1000 120000) ++ ['k'])
      else formatSalaryValue (some (Json.num 90000)) (pyGet c1WitVal "unitText")) ∧
    normalizeSalary c1WitJob = some "90-120k".toList :=
  ⟨c1_range_amended c1WitJob [("value", Json.obj c1WitVal)] c1WitVal 90000 120000
      rfl rfl rfl rfl,
   by decide⟩

/-! ### Claim C8 -/

/-- C8: the gazetteer has 51 distinct codes; the three spec examples scan
as stated; and whenever the regex scan finds nothing the result is
exactly the remote/hybrid fallback chain on the lowered text. -/

theorem c8_location_scan :
    usStates.length = 51 ∧ usStates.Nodup ∧
    findLocationInText "...role based in Austin, TX for a growing team...".toList =
      some "Austin, TX".toList ∧
    findLocationInText "This is a fully remote position".toList = some "Remote".toList ∧
    findLocationInText "Go, To market fast".toList = none ∧
    (∀ text : List Char, locScanAux (text.length + 1) none text = none →
      findLocationInText text =
        if pyContains (pyLower text) "remote".toList then some "Remote".toList
        else if pyContains (pyLower text) "hybrid".toList then some "Hybrid".toList
        else none) := by
  refine ⟨by decide, by decide, by decide, by decide, by decide, ?_⟩
  intro text h
  simp only [findLocationInText, h]

/-- Witness for C8 (fallback clause) at a text the regex scan rejects. -/

theorem c8_witness :
    findLocationInText "Go, To market fast".toList =
      if pyContains (pyLower "Go, To market fast".toList) "remote".toList then
        some "Remote".toList
      else if pyContains (pyLower "Go, To market fast".toList) "hybrid".toList then
        some "Hybrid".toList
      else none :=
  c8_location_scan.2.2.2.2.2 "Go, To market fast".toList (by decide)

/-! ### Claim C9 -/

/-- C9: the dispatcher always returns the generic record: the linkedin
strategy is definitionally generic, hosts ending in linkedin.com (after
lowering and www-stripping) route to it, and unparsable hosts fall back
to generic; in every case the record equals the generic one. -/

theorem c9_dispatch_generic :
    (∀ (url : String) (doc : Doc), scrapeJobDispatch url doc = scrapeGeneric url doc) ∧
    (∀ (url : String) (doc : Doc), scrapeLinkedin url doc = scrapeGeneric url doc) ∧
    (∀ url nl : List Char, pyNetloc url = some nl →
      siteFromUrl url =
        (let host0 := pyLower nl
         let host := if pyStartsWith host0 "www.".toList then host0.drop 4 else host0
         if pyEndsWith host "linkedin.com".toList then some "linkedin".toList else none)) ∧
    (∀ url : List Char, pyNetloc url = none → siteFromUrl url = none) := by
  refine ⟨?_, fun url doc => rfl, ?_, ?_⟩
  · intro url doc
    unfold scrapeJobDispatch
    cases hs : siteFromUrl url.toList with
    | none => rfl
    | some site =>
      show (if site = "linkedin".toList then scrapeLinkedin url doc
        else scrapeGeneric url doc) = scrapeGeneric url doc
      by_cases hl : site = "linkedin".toList
      · rw [if_pos hl]; rfl
      · rw [if_neg hl]
  · intro url nl h
    simp only [siteFromUrl, h]
  · intro url h
    simp only [siteFromUrl, h]

/-- Witness for C9 at a linkedin URL, a plain URL, and a host whose
bracketed netloc fails to parse. -/

theorem c9_witness :
    scrapeJobDispatch "https://www.linkedin.com/jobs/view/1" emptyDoc =
      scrapeGeneric "https://www.linkedin.com/jobs/view/1" emptyDoc ∧
    scrapeLinkedin "https://example.com/x" emptyDoc =
      scrapeGeneric "https://example.com/x" emptyDoc ∧
    siteFromUrl "https://www.linkedin.com/jobs/view/1".toList =
      (let host0 := pyLower "www.linkedin.com".toList
       let host := if pyStartsWith host0 "www.".toList then host0.drop 4 else host0
       if pyEndsWith host "linkedin.com".toList then some "linkedin".toList else none) ∧
    siteFromUrl "https://[bad/x".toList = none :=
  ⟨c9_dispatch_generic.1 "https://www.linkedin.com/jobs/view/1" emptyDoc,
   c9_dispatch_generic.2.1 "https://example.com/x" emptyDoc,
   c9_dispatch_generic.2.2.1 "https://www.linkedin.com/jobs/view/1".toList
     "www.linkedin.com".toList (by decide),
   c9_dispatch_generic.2.2.2 "https://[bad/x".toList (by decide)⟩

/-- Counterexample for C2: "500 to 2000" has exactly one number at least
1000 but is normalized to "0k" (the FIRST number is k-scaled), not "2k";
and a "k"/"hr"/"hour" passthrough is stripped, not returned unmodified. -/

theorem c2_counterexample :
    normalizeSalaryText "500 to 2000".toList = some "0k".toList ∧
    some "0k".toList ≠ some "2k".toList ∧
    normalizeSalaryText " 25k ".toList = some "25k".toList ∧
    ("25k".toList : List Char) ≠ " 25k ".toList :=
  ⟨by decide, by decide, by decide, by decide⟩

/-- C2 (corrected): on the stripped text, empty gives none; a "k", "hr"
or "hour" mention returns the stripped text; no numeric token returns the
stripped text; otherwise with extracted numbers a, tail: if all are below
1000 the result is "a-b" for exactly two numbers, else "a" alone (%g
formatting); if the first two are both at least 1000 the result is the
floor-scaled k-range of those two; in every remaining case the result is
the k-scaling of the FIRST number, whether or not it is at least 1000. -/

theorem c2_salary_text_amended (text : List Char) :
    (pyStrip text = [] → normalizeSalaryText text = none) ∧
    (pyStrip text ≠ [] →
      (pyContains (pyLower (pyStrip text)) "k".toList = true ∨
       pyContains (pyLower (pyStrip text)) "hr".toList = true ∨
       pyContains (pyLower (pyStrip text)) "hour".toList = true) →
      normalizeSalaryText text = some (pyStrip text)) ∧
    (pyStrip text ≠ [] → noKHrHour (pyStrip text) → findNumTokens (pyStrip text) = [] →
      normalizeSalaryText text = some (pyStrip text)) ∧
    (∀ (a : ℚ) (tail : List ℚ), noKHrHour (pyStrip text) →
      (findNumTokens (pyStrip text)).map parseDecimal = a :: tail →
      ((∀ v ∈ a :: tail, v < 1000) →
        (∀ b, tail = [b] → normalizeSalaryText text = some (fmtG a ++ '-' :: fmtG b)) ∧
        (tail.length ≠ 1 → normalizeSalaryText text = some (fmtG a))) ∧
      (∀ b rest, tail = b :: rest → 1000 ≤ a → 1000 ≤ b →
        normalizeSalaryText text =
          some (intDigits (floorDiv1000 a) ++ '-' :: intDigits (floorDiv1000 b) ++ ['k'])) ∧
      (¬ (∀ v ∈ a :: tail, v < 1000) →
        (∀ b rest, tail = b :: rest → ¬(1000 ≤ a ∧ 1000 ≤ b)) →
        normalizeSalaryText text = some (toK a))) := by
  refine ⟨?_, ?_, ?_, ?_⟩
  · intro h
    simp [normalizeSalaryText, h]
  · intro hne hk
    have hie : (pyStrip text).isEmpty = false := by
      cases hx : pyStrip text with
      | nil => exact absurd hx hne
      | cons c cs => rfl
    simp only [normalizeSalaryText]
    rw [if_neg (by simp only [hie]; decide)]
    rcases hk with hk | hk | hk
    · rw [if_pos hk]
    · cases hkk : pyContains (pyLower (pyStrip text)) "k".toList with
      | true => rfl
      | false =>
        rw [if_neg (show ¬(false = true) by decide), if_pos (by rw [hk, Bool.true_or])]
    · cases hkk : pyContains (pyLower (pyStrip text)) "k".toList with
      | true => rfl
      | false =>
        rw [if_neg (show ¬(false = true) by decide), if_pos (by rw [hk, Bool.or_true])]
  · intro hne hno hfnt
    have hie : (pyStrip text).isEmpty = false := by
      cases hx : pyStrip text with
      | nil => exact absurd hx hne
      | cons c cs => rfl
    simp only [normalizeSalaryText]
    rw [if_neg (by simp only [hie]; decide), if_neg (by simp only [hno.1]; decide),
      if_neg (by simp only [hno.2.1, hno.2.2]; decide), if_pos (by rw [hfnt]; rfl)]
  · intro a tail hno hmap
    have hne : pyStrip text ≠ [] := by
      intro he
      rw [he] at hmap
      rw [show (findNumTokens ([] : List Char)).map parseDecimal = [] from rfl] at hmap
      exact List.noConfusion hmap
    have hie : (pyStrip text).isEmpty = false := by
      cases hx : pyStrip text with
      | nil => exact absurd hx hne
      | cons c cs => rfl
    have hfne : (findNumTokens (pyStrip text)).isEmpty = false := by
      cases hx : findNumTokens (pyStrip text) with
      | nil => rw [hx] at hmap; exact List.noConfusion hmap
      | cons u us => rfl
    refine ⟨?_, ?_, ?_⟩
    · intro hall
      have hb : (a :: tail).all (fun v => decide (v < 1000)) = true := by
        rw [List.all_eq_true]
        intro x hx
        exact decide_eq_true (hall x hx)
      constructor
      · intro b htail
        subst htail
        simp only [normalizeSalaryText]
        rw [if_neg (by simp only [hie]; decide), if_neg (by simp only [hno.1]; decide),
          if_neg (by simp only [hno.2.1, hno.2.2]; decide),
          if_neg (by simp only [hfne]; decide)]
        simp only [hmap]
        rw [if_pos hb]
      · intro hlen
        simp only [normalizeSalaryText]
        rw [if_neg (by simp only [hie]; decide), if_neg (by simp only [hno.1]; decide),
          if_neg (by simp only [hno.2.1, hno.2.2]; decide),
          if_neg (by simp only [hfne]; decide)]
        cases tail with
        | nil =>
          simp only [hmap]
          rw [if_pos hb]
        | cons b bs =>
          cases bs with
          | nil => exact absurd rfl hlen
          | cons c cs =>
            simp only [hmap]
            rw [if_pos hb]
    · intro b rest htail ha hb1000
      subst htail
      have hd : decide (a < 1000) = false := decide_eq_false (not_lt.mpr ha)
      have hnall : (a :: b :: rest).all (fun v => decide (v < 1000)) = false := by
        rw [List.all_cons, hd, Bool.false_and]
      simp only [normalizeSalaryText]
      rw [if_neg (by simp only [hie]; decide), if_neg (by simp only [hno.1]; decide),
        if_neg (by simp only [hno.2.1, hno.2.2]; decide),
        if_neg (by simp only [hfne]; decide)]
      simp only [hmap]
      rw [if_neg (by simp only [hnall]; decide)]
      show (if 1000 ≤ a ∧ 1000 ≤ b then
          some (intDigits (floorDiv1000 a) ++ '-' :: intDigits (floorDiv1000 b) ++ ['k'])
        else if 1000 ≤ a then some (toK a) else some (toK a)) =
        some (intDigits (floorDiv1000 a) ++ '-' :: intDigits (floorDiv1000 b) ++ ['k'])
      rw [if_pos ⟨ha, hb1000⟩]
    · intro hnall hnot2
      have hb : (a :: tail).all (fun v => decide (v < 1000)) = false := by
        cases hx : (a :: tail).all (fun v => decide (v < 1000)) with
        | true =>
          exact absurd (fun v hv => of_decide_eq_true (List.all_eq_true.mp hx v hv)) hnall
        | false => rfl
      simp only [normalizeSalaryText]
      rw [if_neg (by simp only [hie]; decide), if_neg (by simp only [hno.1]; decide),
        if_neg (by simp only [hno.2.1, hno.2.2]; decide),
        if_neg (by simp only [hfne]; decide)]
      simp only [hmap]
      rw [if_neg (by simp only [hb]; decide)]
      cases tail with
      | nil =>
        show (if 1000 ≤ a then some (toK a) else some (toK a)) = some (toK a)
        exact ite_self _
      | cons b rest =>
        have hnc : ¬(1000 ≤ a ∧ 1000 ≤ b) := hnot2 b rest rfl
        show (if 1000 ≤ a ∧ 1000 ≤ b then
            some (intDigits (floorDiv1000 a) ++ '-' :: intDigits (floorDiv1000 b) ++ ['k'])
          else if 1000 ≤ a then some (toK a) else some (toK a)) = some (toK a)
        rw [if_neg hnc]
        exact ite_self _

/-- Witness for C2 (k-range clause) at "50,000 - 60,000". -/

theorem c2_witness :
    normalizeSalaryText "50,000 - 60,000".toList =
      some (intDigits (floorDiv1000 50000) ++ '-' :: intDigits (floorDiv1000 60000) ++ ['k']) ∧
    normalizeSalaryText "50,000 - 60,000".toList = some "50-60k".toList :=
  ⟨((c2_salary_text_amended "50,000 - 60,000".toList).2.2.2 50000 [60000]
      ⟨by decide, by decide, by decide⟩ (by decide)).2.1 60000 [] rfl (by decide) (by decide),
   by decide⟩

theorem parseJsonld_eq_flatten (scripts : List (Option Json)) :
    parseJsonldJobposting scripts = claimFirstJobPosting scripts := by
  induction scripts with
  | nil => rfl
  | cons sc rest ih =>
    cases sc with
    | none =>
      simp only [parseJsonldJobposting, claimFirstJobPosting, firstJobPostingIn] at ih ⊢
      rw [List.findSome?_cons]
      simpa using ih
    | some d =>
      simp only [parseJsonldJobposting, claimFirstJobPosting, firstJobPostingIn] at ih ⊢
      rw [List.findSome?_cons]
      simp only [List.filterMap_cons, id_eq, List.flatMap_cons, ih]
      cases hx : List.findSome? (fun c =>
          match c with
          | Json.obj o => if isJobPostingObj o then some o else none
          | _ => none) (jsonldCandidates d) with
      | none =>
        rw [List.findSome?_append, hx]
        rfl
      | some o =>
        rw [List.findSome?_append, hx]
        rfl

theorem parseJsonld_skip_none (pre rest : List (Option Json)) :
    (∀ s ∈ pre, s = none) →
    parseJsonldJobposting (pre ++ rest) = parseJsonldJobposting rest := by
  induction pre with
  | nil => intro _; rfl
  | cons s ps ih =>
    intro h
    have hs : s = none := h s (List.mem_cons_self _ _)
    subst hs
    simp only [List.cons_append, parseJsonldJobposting, List.findSome?_cons]
    exact ih (fun x hx => h x (List.mem_cons_of_mem _ hx))

theorem firstJobPostingIn_singleton {o : List (String × Json)}
    (h : isJobPostingObj o = true) : firstJobPostingIn [Json.obj o] = some o := by
  simp [firstJobPostingIn, List.findSome?_cons, h]

theorem jsonldCandidates_obj_noGraphList {o : List (String × Json)}
    (hg : ∀ g : List Json, o.lookup "@graph" ≠ some (Json.arr g)) :
    jsonldCandidates (Json.obj o) = [Json.obj o] := by
  simp only [jsonldCandidates]

/-- Counterexample for C4: the same JobPosting object is NOT returned
whether it appears bare or as a list element, because a bare mapping with
a top-level "@graph" list is replaced by that (here empty) graph. -/

theorem c4_counterexample :
    isJobPostingObj c4GraphObj = true ∧
    parseJsonldJobposting [some (Json.obj c4GraphObj)] = none ∧
    parseJsonldJobposting [some (Json.arr [Json.obj c4GraphObj])] = some c4GraphObj :=
  ⟨rfl, rfl, rfl⟩

/-- C4 (corrected): the parser is the first-JobPosting scan over the
in-order flattening of all decoded blocks; scripts without decodable
content are skipped, never fatal; and bare, list and graph placements of
one JobPosting object agree PROVIDED the bare object does not itself hold
a top-level "@graph" list (which would replace it as candidate source). -/

theorem c4_first_jobposting_amended :
    (∀ scripts : List (Option Json),
      parseJsonldJobposting scripts = claimFirstJobPosting scripts) ∧
    (∀ pre rest : List (Option Json), (∀ s ∈ pre, s = none) →
      parseJsonldJobposting (pre ++ rest) = parseJsonldJobposting rest) ∧
    (∀ o : List (String × Json), isJobPostingObj o = true →
      (∀ g : List Json, o.lookup "@graph" ≠ some (Json.arr g)) →
      parseJsonldJobposting [some (Json.obj o)] = some o ∧
      parseJsonldJobposting [some (Json.arr [Json.obj o])] = some o ∧
      parseJsonldJobposting [some (Json.obj [("@graph", Json.arr [Json.obj o])])] = some o) := by
  refine ⟨parseJsonld_eq_flatten, fun pre rest h => parseJsonld_skip_none pre rest h, ?_⟩
  intro o hty hg
  have h1 : jsonldCandidates (Json.obj o) = [Json.obj o] :=
    jsonldCandidates_obj_noGraphList hg
  have h2 : jsonldCandidates (Json.arr [Json.obj o]) = [Json.obj o] := rfl
  have h3 : jsonldCandidates (Json.obj [("@graph", Json.arr [Json.obj o])]) = [Json.obj o] :=
    rfl
  refine ⟨?_, ?_, ?_⟩
  · simp [parseJsonldJobposting, List.findSome?_cons, h1, firstJobPostingIn_singleton hty]
  · simp [parseJsonldJobposting, List.findSome?_cons, h2, firstJobPostingIn_singleton hty]
  · simp [parseJsonldJobposting, List.findSome?_cons, h3, firstJobPostingIn_singleton hty]

/-- Witness for C4 (amended) at a concrete posting object with a leading
undecodable script. -/

theorem c4_witness :
    parseJsonldJobposting ([none] ++ [some (Json.obj c4WitObj)]) =
      parseJsonldJobposting [some (Json.obj c4WitObj)] ∧
    parseJsonldJobposting [some (Json.obj c4WitObj)] = claimFirstJobPosting [some (Json.obj c4WitObj)] ∧
    parseJsonldJobposting [some (Json.obj c4WitObj)] = some c4WitObj ∧
    parseJsonldJobposting [some (Json.arr [Json.obj c4WitObj])] = some c4WitObj ∧
    parseJsonldJobposting [some (Json.obj [("@graph", Json.arr [Json.obj c4WitObj])])] =
      some c4WitObj := by
  have hg : ∀ g : List Json, c4WitObj.lookup "@graph" ≠ some (Json.arr g) := by
    intro g h
    exact Option.noConfusion h
  have hw := c4_first_jobposting_amended.2.2 c4WitObj rfl hg
  exact ⟨c4_first_jobposting_amended.2.1 [none] [some (Json.obj c4WitObj)]
      (by intro s hs; simpa using hs),
    c4_first_jobposting_amended.1 [some (Json.obj c4WitObj)],
    hw.1, hw.2.1, hw.2.2⟩
